import Mathlib

/-!
Shallow embedding of the dj-hue Strudel pattern engine
(`src/dj_hue/patterns/strudel/*`, plus the MIDI clock consumer and the
gamma conversion in `src/dj_hue/cli/*`), with theorems settling the
spec claims about it.

Conventions used throughout this development:
* Python `float` arithmetic on pattern/scheduler values is modelled exactly
  over `ℚ`; the only genuinely transcendental operations (the sine waveform of
  a modulator, the gamma power) are abstracted or modelled over `ℝ`.
* Python `Fraction` arithmetic is `ℚ` (exact, as in the source).
* The Mersenne-Twister stream behind `random.Random(seed)` is modelled by a
  deterministic mixing function; the development relies only on the properties
  the code relies on: the stream is a pure function of the seed, and
  `shuffle` produces a permutation.
-/

namespace DjHue

/-! ### Model of the Python `random` module

`random.Random(seed)` is deterministic given its seed.  We model the stream
with a 64-bit mixing function and implement `shuffle` by repeated extraction,
which is deterministic and provably a permutation - the two facts the source
code depends on. -/

/-- One step of the model word stream (an LCG standing in for the
Mersenne Twister of `random.Random`). -/
def rngMix (s : Nat) : Nat :=
  (6364136223846793005 * s + 1442695040888963407) % 18446744073709551616

/-- Convert a Python `int` seed (possibly negative) to a model stream state. -/
def seedState (z : Int) : Nat := rngMix z.natAbs

/-- Model of `random.Random(seed).shuffle`: repeatedly extract the element at a
stream-chosen position (Fisher-Yates).  `fuel` is the list length. -/
def shuffleGo {α : Type} : Nat → Nat → List α → List α
  | _, 0, l => l
  | _, _ + 1, [] => []
  | s, fuel + 1, a :: t =>
    let j := s % (a :: t).length
    (a :: t).getD j a :: shuffleGo (rngMix s) fuel ((a :: t).eraseIdx j)

/-- `pyShuffle seed l` models `rng = random.Random(seed); rng.shuffle(l)`. -/
def pyShuffle {α : Type} (seed : Int) (l : List α) : List α :=
  shuffleGo (seedState seed) l.length l

theorem get_cons_eraseIdx_perm {α : Type} :
    ∀ (l : List α) (i : Fin l.length), (l.get i :: l.eraseIdx i).Perm l := by
  intro l
  induction l with
  | nil => intro i; exact absurd i.isLt (by simp)
  | cons a t ih =>
    intro i
    match i with
    | ⟨0, _⟩ => simp
    | ⟨j + 1, hj⟩ =>
      have hj' : j < t.length := by simpa using hj
      have h1 : (t.get ⟨j, hj'⟩ :: a :: t.eraseIdx j).Perm
          (a :: t.get ⟨j, hj'⟩ :: t.eraseIdx j) := List.Perm.swap _ _ _
      exact h1.trans (List.Perm.cons a (ih ⟨j, hj'⟩))

theorem shuffleGo_perm {α : Type} :
    ∀ (fuel s : Nat) (l : List α), (shuffleGo s fuel l).Perm l := by
  intro fuel
  induction fuel with
  | zero => intro s l; simp [shuffleGo]
  | succ n ih =>
    intro s l
    cases l with
    | nil => simp [shuffleGo]
    | cons a t =>
      simp only [shuffleGo]
      have hj : s % (a :: t).length < (a :: t).length :=
        Nat.mod_lt _ (by simp)
      rw [List.getD_eq_getElem (a :: t) a hj]
      refine List.Perm.trans (List.Perm.cons _ (ih _ _)) ?_
      exact get_cons_eraseIdx_perm (a :: t) ⟨_, hj⟩

/-- The modelled shuffle is a permutation of its input, for every seed. -/
theorem pyShuffle_perm {α : Type} (seed : Int) (l : List α) :
    (pyShuffle seed l).Perm l :=
  shuffleGo_perm _ _ _

/-- Model of `random.Random(seed).choice(l)` (uniform choice from the stream). -/
def pyChoice {α : Type} (seed : Int) (l : List α) (dflt : α) : α :=
  l.getD (seedState seed % l.length) dflt

/-- Model of `random.Random(seed).randint(a, b)` (inclusive bounds). -/
def pyRandInt (seed : Int) (a b : Int) : Int :=
  if b < a then a else a + (seedState seed : Int) % (b - a + 1)

/-- Model of `random.Random(seed).sample(l, n)`: the first `n` elements of the
shuffled list (sampling without replacement). -/
def pySample {α : Type} (seed : Int) (l : List α) (n : Nat) : List α :=
  (pyShuffle seed l).take n

/-- Model of Python `hash` on a `Fraction` (a deterministic mix of numerator
and denominator; the source uses it only as an RNG seed). -/
def pyHashQ (q : ℚ) : Int :=
  (q.num * 2654435761 + (q.den : Int)) % 2305843009213693951

/-! ### Python numeric helpers over `ℚ` -/

/-- Python `int(q)` on a `Fraction`/nonnegative `float`: truncation toward
zero. -/
def pyInt (q : ℚ) : Int := if 0 ≤ q then ⌊q⌋ else -⌊-q⌋

/-- Python `q % 1.0`: the fractional part, always in `[0, 1)`. -/
def pyMod1 (q : ℚ) : ℚ := q - ⌊q⌋

theorem pyInt_eq_floor_of_nonneg {q : ℚ} (h : 0 ≤ q) : pyInt q = ⌊q⌋ := by
  simp [pyInt, h]

theorem pyInt_natCast (n : ℕ) : pyInt (n : ℚ) = n := by
  rw [pyInt_eq_floor_of_nonneg (by positivity)]
  exact Int.floor_natCast n

theorem emod_eq_mod (a b : Int) : a.emod b = a % b := rfl

/-! ### Core types (`patterns/strudel/core/types.py`) -/

/-- `HSV`: a plain named tuple.  The constructor performs no normalization;
only the update methods below clamp or wrap. -/
structure HSV where
  hue : ℚ
  saturation : ℚ := 1
  value : ℚ := 1
  deriving DecidableEq, Repr

/-- `HSV.with_hue`: hue wraps at 1.0 (Python `hue % 1.0`). -/
def HSV.with_hue (c : HSV) (hue : ℚ) : HSV :=
  ⟨pyMod1 hue, c.saturation, c.value⟩

/-- `HSV.with_saturation`: clamps into `[0, 1]`. -/
def HSV.with_saturation (c : HSV) (sat : ℚ) : HSV :=
  ⟨c.hue, max 0 (min 1 sat), c.value⟩

/-- `HSV.with_value`: clamps into `[0, 1]`. -/
def HSV.with_value (c : HSV) (val : ℚ) : HSV :=
  ⟨c.hue, c.saturation, max 0 (min 1 val)⟩

/-- `TimeSpan`: a half-open span of cycle time over exact rationals.
(The Python field `end` is a Lean keyword; it is named `stop` here.) -/
structure TimeSpan where
  start : ℚ
  stop : ℚ
  deriving DecidableEq, Repr

def TimeSpan.duration (s : TimeSpan) : ℚ := s.stop - s.start

/-- `TimeSpan.intersection`: overlapping portion, `None` when empty. -/
def TimeSpan.intersection (s other : TimeSpan) : Option TimeSpan :=
  let new_start := max s.start other.start
  let new_stop := min s.stop other.stop
  if new_start < new_stop then some ⟨new_start, new_stop⟩ else none

/-- `TimeSpan.contains`: inclusive start, exclusive end. -/
def TimeSpan.contains (s : TimeSpan) (time : ℚ) : Prop :=
  s.start ≤ time ∧ time < s.stop

instance (s : TimeSpan) (t : ℚ) : Decidable (s.contains t) := by
  unfold TimeSpan.contains; infer_instance

def TimeSpan.shift (s : TimeSpan) (offset : ℚ) : TimeSpan :=
  ⟨s.start + offset, s.stop + offset⟩

/-- `TimeSpan.scale`: both bounds multiplied by `factor`. -/
def TimeSpan.scale (s : TimeSpan) (factor : ℚ) : TimeSpan :=
  ⟨s.start * factor, s.stop * factor⟩

/-! ### Palettes (`patterns/strudel/palette.py`) -/

inductive PaletteSelectionMode where
  | INDEX | RANDOM | CYCLE | RANDOM_HOLD | RANDOM_BLEND | CYCLE_HOLD
  deriving DecidableEq, Repr

/-- `PaletteRef`: a deferred description of how to pick a color at render
time. -/
structure PaletteRef where
  mode : PaletteSelectionMode
  index : Int := 0
  hold_beats : ℚ := 1
  blend_beats : ℚ := 0
  deriving DecidableEq, Repr

/-- `Palette`: named, ordered colors.  The source forbids empty palettes
(`__post_init__` raises); emptiness is excluded by hypothesis where it
matters. -/
structure Palette where
  name : String
  colors : List HSV
  deriving DecidableEq, Repr

/-- `palette[index]`: wrapping access, `colors[index % len(colors)]`.
(On an empty palette the source raises; here it returns red.) -/
def Palette.get (p : Palette) (index : Int) : HSV :=
  p.colors.getD (index.emod p.colors.length).toNat ⟨0, 1, 1⟩

/-- `interpolate_hsv` (`core/envelope.py`): linear HSV interpolation taking the
shorter hue arc; `t` clamped into `[0,1]`, final hue wrapped mod 1. -/
def interpolate_hsv (c1 c2 : HSV) (t0 : ℚ) : HSV :=
  let t := max 0 (min 1 t0)
  let h1 := c1.hue
  let h2 := c2.hue
  let hp : ℚ × ℚ :=
    if 1/2 < |h2 - h1| then (if h1 < h2 then (h1 + 1, h2) else (h1, h2 + 1))
    else (h1, h2)
  ⟨pyMod1 (hp.1 + (hp.2 - hp.1) * t),
   c1.saturation + (c2.saturation - c1.saturation) * t,
   c1.value + (c2.value - c1.value) * t⟩

/-- `PaletteRef.resolve`: pick an actual HSV from the active palette.
The Mersenne-Twister RNG is modelled (see the RNG section); the fallback
branches that use an unseeded `random.Random()` are modelled with seed 0. -/
def PaletteRef.resolve (ref : PaletteRef) (palette : Palette) (event_index : Int := 0)
    (cycle_position : Option ℚ := none) (seed : Option Int := none) : HSV :=
  match ref.mode with
  | .INDEX => palette.get ref.index
  | .RANDOM =>
    let s : Int :=
      match seed, cycle_position with
      | some s, _ => s
      | none, some cp => pyInt (cp * 10000) + event_index
      | none, none => 0
    pyChoice s palette.colors ⟨0, 1, 1⟩
  | .CYCLE => palette.get event_index
  | .RANDOM_HOLD =>
    match cycle_position, seed with
    | some cp, _ =>
      let pos_beats := cp * 4
      let quantized := pyInt (pos_beats / ref.hold_beats)
      let indices := pyShuffle 42 (List.range palette.colors.length)
      let shuffled_index := indices.getD (quantized.emod indices.length).toNat 0
      palette.get shuffled_index
    | none, some s => pyChoice s palette.colors ⟨0, 1, 1⟩
    | none, none => pyChoice 0 palette.colors ⟨0, 1, 1⟩
  | .CYCLE_HOLD =>
    match cycle_position with
    | some cp =>
      let pos_beats := cp * 4
      let quantized := pyInt (pos_beats / ref.hold_beats)
      palette.get quantized
    | none => palette.get event_index
  | .RANDOM_BLEND =>
    match cycle_position, seed with
    | some cp, _ =>
      let pos_beats := cp * 4
      let period := ref.hold_beats
      let fade := ref.blend_beats
      let period_index := pyInt (pos_beats / period)
      let pos_in_period := pos_beats - period * ⌊pos_beats / period⌋
      let indices := pyShuffle 42 (List.range palette.colors.length)
      let from_idx := indices.getD (period_index.emod indices.length).toNat 0
      let to_idx := indices.getD ((period_index + 1).emod indices.length).toNat 0
      let hold_duration := period - fade
      if pos_in_period < hold_duration ∨ fade ≤ 0 then
        palette.get from_idx
      else
        interpolate_hsv (palette.get from_idx) (palette.get to_idx)
          ((pos_in_period - hold_duration) / fade)
    | none, some s => pyChoice s palette.colors ⟨0, 1, 1⟩
    | none, none => pyChoice 0 palette.colors ⟨0, 1, 1⟩

/-! ### Modulators (`patterns/strudel/modulator.py`)

The structure is embedded faithfully; evaluating `get_intensity` involves
`math.sin` for the sine waveform, so the scheduler below is parametric in the
evaluation function (`modEval`). -/

inductive WaveType where
  | SINE | TRIANGLE | SAW | SQUARE
  deriving DecidableEq, Repr

/-- `Modulator`: an LFO-style intensity multiplier.  The Python `_chain` field
(`list | None`) is modelled with `[]` for `None`. -/
inductive Modulator where
  | mk (wave : WaveType) (frequency : ℚ) (min_intensity : ℚ) (max_intensity : ℚ)
       (phase : ℚ) (reference_time : ℚ) (chainMods : List Modulator)

/-! ### Envelopes (`patterns/strudel/core/envelope.py`) -/

structure Envelope where
  attack : ℚ := 0
  decay : ℚ := 0
  sustain : ℚ := 1
  release : ℚ := 0
  flash_color : Option HSV := none
  fade_color : Option HSV := none
  flash_ref : Option PaletteRef := none
  fade_ref : Option PaletteRef := none
  deriving DecidableEq, Repr

/-- `Envelope.get_intensity`: intensity at `time_in_event` cycles after the
event start. -/
def Envelope.get_intensity (e : Envelope) (time_in_event : ℚ) : ℚ :=
  if time_in_event < 0 then 0
  else if time_in_event < e.attack then
    if e.attack ≤ 0 then 1
    else
      let t := time_in_event / e.attack
      if 1/20 < e.attack then max (1/10) t else 1
  else
    let time_after_attack := time_in_event - e.attack
    if time_after_attack < e.decay then
      if e.decay ≤ 0 then e.sustain
      else
        let t := time_after_attack / e.decay
        1 - t * (1 - e.sustain)
    else e.sustain

/-- `Envelope.get_release_intensity`: intensity during the release phase,
`time_since_release` cycles after the event's whole ended. -/
def Envelope.get_release_intensity (e : Envelope) (time_since_release : ℚ) : ℚ :=
  if e.release ≤ 0 then 0
  else if e.release ≤ time_since_release then 0
  else
    let t := time_since_release / e.release
    e.sustain * (1 - t)

/-! ### Light values, haps and context (`patterns/strudel/core/types.py`) -/

structure LightValue where
  light_id : Option Int := none
  group : Option String := none
  color : Option HSV := none
  color_ref : Option PaletteRef := none
  intensity : ℚ := 1
  envelope : Option Envelope := none
  modulator : Option Modulator := none

/-- `LightHap`: an event with its full logical span and the queried portion. -/
structure LightHap where
  whole : Option TimeSpan
  part : TimeSpan
  value : LightValue

def LightHap.whole_or_part (h : LightHap) : TimeSpan :=
  match h.whole with
  | some w => w
  | none => h.part

def LightHap.with_value (h : LightHap) (value : LightValue) : LightHap :=
  ⟨h.whole, h.part, value⟩

def LightHap.with_part (h : LightHap) (part : TimeSpan) : LightHap :=
  ⟨h.whole, part, h.value⟩

def LightHap.shift (h : LightHap) (offset : ℚ) : LightHap :=
  ⟨h.whole.map (·.shift offset), h.part.shift offset, h.value⟩

/-- `LightHap.scale factor`: times are multiplied by `1/factor`. -/
def LightHap.scale (h : LightHap) (factor : ℚ) : LightHap :=
  ⟨h.whole.map (·.scale factor⁻¹), h.part.scale factor⁻¹, h.value⟩

/-- `LightContext`: runtime light setup.  Group/zone dicts are association
lists; `resolve_group` returns `[]` for unknown names.  (The Python
`__post_init__` inserting a default `all` group is a construction-time step,
modelled by `LightContext.default` below.) -/
structure LightContext where
  num_lights : Nat
  groups : List (String × List Int) := []
  cycle_beats : ℚ := 4
  zones : List (String × List Int) := []
  available_zones : List String := []
  deriving DecidableEq, Repr

def LightContext.resolve_group (ctx : LightContext) (name : String) : List Int :=
  ((ctx.groups.find? (·.1 = name)).map (·.2)).getD []

def LightContext.resolve_zone (ctx : LightContext) (name : String) : List Int :=
  ((ctx.zones.find? (·.1 = name)).map (·.2)).getD []

def LightContext.has_zone (ctx : LightContext) (name : String) : Prop :=
  name ∈ ctx.available_zones

/-- Integer range as `Int` list (`range(a, b)` in Python). -/
def intRange (a b : Int) : List Int :=
  (List.range (b - a).toNat).map (fun i => a + i)

/-- `LightContext.default`: the standard groups for `n` lights (including the
`__post_init__` `all` group). -/
def LightContext.default (num_lights : Nat := 6) : LightContext :=
  let half : Int := num_lights / 2
  { num_lights := num_lights
    groups := [("all", intRange 0 num_lights),
               ("left", intRange 0 half),
               ("right", intRange half num_lights),
               ("odd", (intRange 0 num_lights).filter (fun i => i % 2 = 1)),
               ("even", (intRange 0 num_lights).filter (fun i => i % 2 = 0))] }

/-- Python truthiness of an optional string (`if hap.value.group:`). -/
def groupTruthy : Option String → Bool
  | none => false
  | some g => g ≠ ""

/-! ### RGB (`lights/effects.py`) and `colorsys.hsv_to_rgb` -/

structure RGB where
  r : Int
  g : Int
  b : Int
  deriving DecidableEq, Repr

/-- `colorsys.hsv_to_rgb` from the Python standard library (exact rational
arithmetic). -/
def hsv_to_rgb (h s v : ℚ) : ℚ × ℚ × ℚ :=
  if s = 0 then (v, v, v)
  else
    let i0 := pyInt (h * 6)
    let f := h * 6 - i0
    let p := v * (1 - s)
    let q := v * (1 - s * f)
    let t := v * (1 - s * (1 - f))
    let i := i0.emod 6
    if i = 0 then (v, t, p)
    else if i = 1 then (q, v, p)
    else if i = 2 then (p, v, t)
    else if i = 3 then (p, q, v)
    else if i = 4 then (t, p, v)
    else (v, p, q)

/-- `RGB.from_hsv`: hue wrapped mod 1, channels truncated to `0..255`. -/
def RGB.from_hsv (h s v : ℚ) : RGB :=
  let c := hsv_to_rgb (pyMod1 h) s v
  ⟨pyInt (c.1 * 255), pyInt (c.2.1 * 255), pyInt (c.2.2 * 255)⟩

def RGB.black : RGB := ⟨0, 0, 0⟩

/-! ### Patterns and combinators (`patterns/strudel/core/pattern.py`)

A `LightPattern` is its query function.  The `float | int` factors accepted by
`fast`/`slow`/`pick` are converted by the source through
`Fraction(x).limit_denominator(1000)` at the API boundary; the embedding takes
the resulting exact rational. -/

def LightPattern : Type := TimeSpan → LightContext → List LightHap

def LightPattern.query (p : LightPattern) (span : TimeSpan) (ctx : LightContext) :
    List LightHap := p span ctx

/-- `fast(factor)`: query a span expanded by `factor`, compress results. -/
def LightPattern.fast (p : LightPattern) (factor : ℚ) : LightPattern :=
  fun span ctx => (p.query (span.scale factor) ctx).map (·.scale factor)

/-- `slow(factor)`: `fast(1/factor)` (the source computes `Fraction(1, factor)`
for ints and `1 / factor` for floats). -/
def LightPattern.slow (p : LightPattern) (factor : ℚ) : LightPattern :=
  p.fast factor⁻¹

/-- Sort key of the pre-shuffle sort: `(whole_or_part().start, light_id or 0)`. -/
def sortKey (h : LightHap) : ℚ × Int :=
  (h.whole_or_part.start, h.value.light_id.getD 0)

/-- Lexicographic comparison of sort keys (Python tuple ordering). -/
def keyLE (a b : ℚ × Int) : Bool :=
  a.1 < b.1 || (a.1 = b.1 && a.2 ≤ b.2)

/-- The full-cycle shuffled assignment computed inside `shuffle` for one cycle:
sort the cycle's haps, keep timings in place, shuffle the values.  It depends
only on the cycle number, never on the query span. -/
def shuffledCycle (p : LightPattern) (seed : Option Int) (ctx : LightContext)
    (cycle : Int) : List LightHap :=
  let cycle_haps := p.query ⟨(cycle : ℚ), (cycle : ℚ) + 1⟩ ctx
  if cycle_haps.length ≤ 1 then cycle_haps
  else
    let rngSeed : Int := match seed with | none => cycle | some s => s + cycle
    let sorted := cycle_haps.mergeSort (fun a b => keyLE (sortKey a) (sortKey b))
    let timings := sorted.map (fun h => (h.whole, h.part))
    let values := sorted.map (·.value)
    let shuffled := pyShuffle rngSeed values
    (timings.zip shuffled).map (fun tv => ⟨tv.1.1, tv.1.2, tv.2⟩)

/-- Clip a list of haps to the query span, dropping empty intersections (the
`intersection`/append step shared by both branches of `shuffle`). -/
def filterToSpan (span : TimeSpan) (haps : List LightHap) : List LightHap :=
  haps.filterMap (fun h => (h.part.intersection span).map (fun i => h.with_part i))

/-- `shuffle(seed)`: per-cycle deterministic permutation of event values. -/
def LightPattern.shuffle (p : LightPattern) (seed : Option Int := none) : LightPattern :=
  fun span ctx =>
    let cycle_start := pyInt span.start
    let cycle_end := pyInt span.stop + 1
    (intRange cycle_start cycle_end).flatMap
      (fun cycle => filterToSpan span (shuffledCycle p seed ctx cycle))

/-- Doubling loop of `seq`: `num_slots = 4; while num_slots < n: num_slots *= 2`. -/
def pow2From : Nat → Nat → Nat → Nat
  | 0, acc, _ => acc
  | f + 1, acc, n => if acc < n then pow2From f (2 * acc) n else acc

/-- Slot count used by `seq` for a physical group of size `n`. -/
def seqSlots (slots : Option Nat) (n numLights : Nat) : Nat :=
  match slots with
  | some s => max n (s * n / numLights)
  | none => if 4 < n then pow2From n 4 n else max 4 n

/-- `seq(slots, per_group)`: expand each group-targeted hap into a sequence
through the group's lights, with polyrhythmic wrap-around across cycles. -/
def LightPattern.seq (p : LightPattern) (slots : Option Nat := none)
    (per_group : Bool := true) : LightPattern :=
  fun span ctx =>
    (p.query span ctx).flatMap (fun hap =>
      if groupTruthy hap.value.group && hap.value.light_id.isNone then
        let group_name := hap.value.group.getD ""
        let physical_groups :=
          if per_group && group_name = "all" then
            let strip := ctx.resolve_group "strip"
            let lamps := ctx.resolve_group "lamps"
            let ambient := ctx.resolve_group "ambient"
            let pgs := (if strip ≠ [] then [strip] else [])
              ++ (if lamps ≠ [] then [lamps] else [])
              ++ (if ambient ≠ [] then [ambient] else [])
            if pgs = [] then [ctx.resolve_group "all"] else pgs
          else [ctx.resolve_group group_name]
        let event_span := hap.whole_or_part
        let event_duration := event_span.duration
        physical_groups.flatMap (fun lights =>
          if lights = [] then []
          else
            let n := lights.length
            let num_slots := seqSlots slots n ctx.num_lights
            let light_duration := event_duration / num_slots
            let cycle_start := pyInt event_span.start
            let base_slot := (cycle_start * num_slots).emod n
            (List.range num_slots).filterMap (fun slot =>
              let light_id := lights.getD ((base_slot + slot).emod n).toNat 0
              let light_start := event_span.start + light_duration * slot
              let light_whole : TimeSpan := ⟨light_start, light_start + light_duration⟩
              (light_whole.intersection span).map (fun inter =>
                LightHap.mk (some light_whole) inter
                  { light_id := some light_id
                    group := none
                    color := hap.value.color
                    intensity := hap.value.intensity
                    envelope := hap.value.envelope
                    modulator := hap.value.modulator })))
      else [hap])

/-- A Python `int | float` argument (the two are distinguished by
`isinstance` in `pick`). -/
inductive PyNum where
  | int (z : Int)
  | float (q : ℚ)

/-- Python `round()`: round half to even. -/
def pyRound (q : ℚ) : Int :=
  let f := ⌊q⌋
  if q - f < 1/2 then f
  else if 1/2 < q - f then f + 1
  else if f % 2 = 0 then f else f + 1

/-- `resolve_count` inside `pick`: floats in `[0,1]` are percentages of the
group size (at least 1); anything else truncates to int. -/
def resolveCount (value : PyNum) (total : Nat) : Int :=
  match value with
  | .float q => if 0 ≤ q ∧ q ≤ 1 then max 1 (pyRound (q * total)) else pyInt q
  | .int z => z

/-- `pick(min_n, max_n, seed, hold)`: replace each group-targeted hap by haps
for a randomly sampled subset of the group's lights.  The single advancing
RNG stream of the source (`randint` then `sample`) is modelled by reusing the
event seed. -/
def LightPattern.pick (p : LightPattern) (min_n : PyNum := .int 1)
    (max_n : Option PyNum := none) (seed : Option Int := none)
    (hold : Option ℚ := none) : LightPattern :=
  let max_n := max_n.getD min_n
  fun span ctx =>
    (p.query span ctx).flatMap (fun hap =>
      if hap.value.light_id.isSome then [hap]
      else
        let lights := if groupTruthy hap.value.group then
            ctx.resolve_group (hap.value.group.getD "")
          else intRange 0 ctx.num_lights
        if lights = [] then []
        else
          let actual_min := resolveCount min_n lights.length
          let actual_max := resolveCount max_n lights.length
          let event_time := hap.whole_or_part.start
          let event_seed : Int :=
            match hold with
            | some hf => seed.getD 0 + pyHashQ ((⌊event_time / hf⌋ : ℚ) * hf)
            | none => seed.getD 0 + pyHashQ event_time
          let n0 := pyRandInt event_seed actual_min (min actual_max lights.length)
          let n := max 1 (min n0 lights.length)
          let selected := pySample event_seed lights n.toNat
          selected.map (fun light_id => LightHap.mk hap.whole hap.part
            { light_id := some light_id
              group := none
              color := hap.value.color
              intensity := hap.value.intensity
              envelope := hap.value.envelope
              modulator := hap.value.modulator }))

/-! ### Scheduler (`patterns/strudel/scheduler.py`)

`PatternScheduler.compute_colors` is embedded as a pure function of the
scheduler configuration, the `_active_events` tracker and the beat position.
It is parametric in `modEval`, the evaluation function of
`Modulator.get_intensity` (whose sine waveform uses `math.sin`). -/

structure ActiveEvent where
  hap : LightHap
  start_cycle : ℚ

structure Scheduler where
  pattern : LightPattern
  context : LightContext
  default_color : HSV := ⟨0, 1, 1⟩
  cycle_beats : ℚ := 4
  palette : Option Palette := none

/-- `PatternScheduler._resolve_color`: literal color wins, else resolve the
palette reference, else the default color. -/
def Scheduler.resolveColor (s : Scheduler) (color : Option HSV)
    (color_ref : Option PaletteRef) (event_index : Int) (cycle_position : ℚ) : HSV :=
  match color with
  | some c => c
  | none =>
    match color_ref, s.palette with
    | some ref, some pal => ref.resolve pal event_index (some cycle_position)
    | _, _ => s.default_color

/-- `PatternScheduler._get_envelope_color`: flash/fade color resolution with
palette support and flash-to-fade interpolation during decay. -/
def Scheduler.getEnvelopeColor (s : Scheduler) (envl : Envelope) (time_in_event : ℚ)
    (base_color : HSV) (event_index : Int) (cycle_position : ℚ) : HSV :=
  let flash_color : Option HSV :=
    match envl.flash_color with
    | some c => some c
    | none =>
      match envl.flash_ref, s.palette with
      | some r, some pal => some (r.resolve pal event_index (some cycle_position))
      | _, _ => none
  let fade_color : Option HSV :=
    match envl.fade_color with
    | some c => some c
    | none =>
      match envl.fade_ref, s.palette with
      | some r, some pal => some (r.resolve pal event_index (some cycle_position))
      | _, _ => none
  if time_in_event < envl.attack then
    match flash_color, fade_color with
    | some c, _ => c
    | none, some c => c
    | none, none => base_color
  else
    match fade_color, flash_color with
    | some fc, some flc =>
      if 0 < envl.decay then
        let time_after_attack := time_in_event - envl.attack
        if time_after_attack < envl.decay then
          interpolate_hsv flc fc (time_after_attack / envl.decay)
        else fc
      else fc
    | some fc, none => fc
    | none, some flc => flc
    | none, none => base_color

/-- The per-frame accumulator: the `colors` and `intensities` dicts (as
lookup functions) plus the `_active_events` dict (as an insertion-ordered
association list). -/
structure FrameAcc where
  colors : Int → Option RGB
  intens : Int → Option ℚ
  active : List (Int × ActiveEvent)

/-- `self._active_events[k] = v`: replace in place or append. -/
def dictSet (l : List (Int × ActiveEvent)) (k : Int) (v : ActiveEvent) :
    List (Int × ActiveEvent) :=
  if l.any (fun kv => kv.1 = k) then l.map (fun kv => if kv.1 = k then (k, v) else kv)
  else l ++ [(k, v)]

/-- Light ids a hap resolves to (single light, group expansion, or skip). -/
def lightIdsOf (ctx : LightContext) (hap : LightHap) : List Int :=
  match hap.value.light_id with
  | some i => [i]
  | none =>
    if groupTruthy hap.value.group then ctx.resolve_group (hap.value.group.getD "")
    else []

/-- The HTP condition: `light_id not in intensities or intensity >
intensities[light_id]`. -/
def htpLess (cur : Option ℚ) (inten : ℚ) : Bool :=
  match cur with
  | none => true
  | some old => decide (old < inten)

/-- The HTP write: update `colors`/`intensities` only when the light has no
recorded intensity yet or the new intensity is strictly greater. -/
def htpWrite (acc : FrameAcc) (light_id : Int) (c : RGB) (inten : ℚ) : FrameAcc :=
  if htpLess (acc.intens light_id) inten then
    { acc with colors := Function.update acc.colors light_id (some c)
               intens := Function.update acc.intens light_id (some inten) }
  else acc

/-- The effective intensity of a hap at cycle position `cp` (the product
`event.intensity * envelope_intensity * modulator_intensity` of the source). -/
def effIntensity (modEval : Modulator → ℚ → ℚ) (hap : LightHap) (cp : ℚ) : ℚ :=
  let time_in_event := cp - hap.whole_or_part.start
  let envelope_intensity :=
    match hap.value.envelope with
    | some envl => envl.get_intensity time_in_event
    | none => 1
  let modulator_intensity :=
    match hap.value.modulator with
    | some m => modEval m cp
    | none => 1
  hap.value.intensity * envelope_intensity * modulator_intensity

/-- Inner loop body of the first pass of `compute_colors` (one hap, one target
light). -/
def Scheduler.processLight (modEval : Modulator → ℚ → ℚ) (s : Scheduler) (cp : ℚ)
    (hap_idx : Nat) (hap : LightHap) (acc : FrameAcc) (light_id : Int) : FrameAcc :=
  if light_id < 0 ∨ (s.context.num_lights : Int) ≤ light_id then acc
  else
    let event_span := hap.whole_or_part
    let event_start := event_span.start
    if event_span.contains cp then
      let time_in_event := cp - event_start
      let base_color := s.resolveColor hap.value.color hap.value.color_ref hap_idx cp
      let color :=
        match hap.value.envelope with
        | some envl => s.getEnvelopeColor envl time_in_event base_color hap_idx cp
        | none => base_color
      let intensity := effIntensity modEval hap cp
      if intensity < 1/100 then acc
      else
        let acc1 := htpWrite acc light_id
          (RGB.from_hsv color.hue color.saturation intensity) intensity
        { acc1 with active := dictSet acc1.active light_id ⟨hap, event_start⟩ }
    else acc

/-- First pass of `compute_colors`: all haps of the query, in order, each over
its resolved target lights. -/
def Scheduler.phase1 (modEval : Modulator → ℚ → ℚ) (s : Scheduler) (cp : ℚ)
    (haps : List LightHap) (acc0 : FrameAcc) : FrameAcc :=
  haps.enum.foldl
    (fun acc ih => (lightIdsOf s.context ih.2).foldl (s.processLight modEval cp ih.1 ih.2) acc)
    acc0

/-- Second pass of `compute_colors`: continuation of tracked envelopes beyond
their event slot; also collects the expired entries. -/
def Scheduler.processActive (modEval : Modulator → ℚ → ℚ) (s : Scheduler) (cp : ℚ)
    (st : FrameAcc × List Int) (entry : Int × ActiveEvent) : FrameAcc × List Int :=
  let acc := st.1
  let expired := st.2
  let light_id := entry.1
  let active := entry.2
  if (acc.colors light_id).isSome then (acc, expired)
  else
    match active.hap.value.envelope with
    | none => (acc, expired ++ [light_id])
    | some envl =>
      let active_span := active.hap.whole_or_part
      let time_since_event_start := cp - active_span.start
      let envelope_end_time := active_span.start + envl.attack + envl.decay
      if cp < envelope_end_time ∧ 0 ≤ time_since_event_start then
        let base_color := s.resolveColor active.hap.value.color active.hap.value.color_ref
          light_id cp
        let color := s.getEnvelopeColor envl time_since_event_start base_color light_id cp
        let intensity := effIntensity modEval active.hap cp
        if intensity < 1/100 then (acc, expired ++ [light_id])
        else
          (htpWrite acc light_id (RGB.from_hsv color.hue color.saturation intensity) intensity,
           expired)
      else (acc, expired ++ [light_id])

structure FrameResult where
  colors : Int → Option RGB
  intens : Int → Option ℚ
  active : List (Int × ActiveEvent)

/-- `PatternScheduler.compute_colors`, with the intensities dict and the
updated `_active_events` tracker exposed. -/
def Scheduler.computeFrame (modEval : Modulator → ℚ → ℚ) (s : Scheduler)
    (activeIn : List (Int × ActiveEvent)) (beat_position : ℚ) : FrameResult :=
  let cycle_position := beat_position / s.cycle_beats
  let query_margin : ℚ := 1/50
  let query_start := max 0 (cycle_position - query_margin)
  let query_span : TimeSpan := ⟨query_start, cycle_position + query_margin⟩
  let haps := s.pattern.query query_span s.context
  let acc1 := s.phase1 modEval cycle_position haps ⟨fun _ => none, fun _ => none, activeIn⟩
  let step2 := acc1.active.foldl (s.processActive modEval cycle_position) (acc1, [])
  let acc2 := step2.1
  let expired := step2.2
  let activeOut := acc2.active.filter (fun kv => ¬ expired.contains kv.1)
  let colorsFilled : Int → Option RGB := fun i =>
    match acc2.colors i with
    | some c => some c
    | none => if 0 ≤ i ∧ i < (s.context.num_lights : Int) then some RGB.black else none
  ⟨colorsFilled, acc2.intens, activeOut⟩

/-- The dict returned by `compute_colors` together with the post-call tracker
state. -/
def Scheduler.compute_colors (modEval : Modulator → ℚ → ℚ) (s : Scheduler)
    (activeIn : List (Int × ActiveEvent)) (beat_position : ℚ) :
    (Int → Option RGB) × List (Int × ActiveEvent) :=
  let fr := s.computeFrame modEval activeIn beat_position
  (fr.colors, fr.active)

/-! ### MIDI clock consumer (`cli/midi_pattern_mode.py`, message loop)

The loop's clock-related state and its handling of the special MIDI messages
(`start`, `stop`, `continue`, `songpos`).  `TICKS_PER_BEAT = 24`. -/

structure ClockState where
  tick_count : Int
  beat_count : Int
  last_beat_time : ℚ
  /-- `engine_state.beat_position`, the published beat position. -/
  beat_position : ℚ
  /-- `engine_state.beat_count`, the published beat count. -/
  eng_beat_count : Int

inductive MidiSpecial where
  | start
  | stop
  /-- a MIDI `continue` message -/
  | cont
  /-- a MIDI song-position message, `pos` in sixteenth notes -/
  | songpos (pos : Int)

/-- The `elif msg.type == ...` arms for the special messages (`now` is
`time.time()`).  UI-only fields are omitted. -/
def handleSpecial (now : ℚ) (msg : MidiSpecial) (st : ClockState) : ClockState :=
  match msg with
  | .start =>
    { st with tick_count := 0, beat_count := 1, last_beat_time := now,
              beat_position := 0, eng_beat_count := 1 }
  | .stop => st
  | .cont =>
    { st with tick_count := 0, beat_count := 1, last_beat_time := now,
              beat_position := 0, eng_beat_count := 1 }
  | .songpos pos =>
    let beat_count := pos.fdiv 4 + 1
    let tick_count := pos.emod 4 * (24 / 4)
    { st with beat_count := beat_count, tick_count := tick_count,
              beat_position := ((beat_count - 1 : Int) : ℚ) + (tick_count : ℚ) / 24,
              eng_beat_count := beat_count }

/-! ### Gamma conversion (`cli/midi_pattern_mode.py` / `cli/midi_hue.py`,
`rgb_to_rgb16`)

Channel floats are modelled over `ℝ`; Python `int()` truncates toward zero,
which on the nonnegative powered value is the floor. -/

/-- One channel of `rgb_to_rgb16`: clamp to `[0,1]`, raise to `gamma`, scale
to 16 bit, truncate. -/
noncomputable def gammaChannel (v : ℝ) (gamma : ℝ) : ℤ :=
  ⌊(max 0 (min 1 v)) ^ gamma * 65535⌋

noncomputable def rgb_to_rgb16 (r g b : ℝ) (gamma : ℝ := 2.2) : ℤ × ℤ × ℤ :=
  (gammaChannel r gamma, gammaChannel g gamma, gammaChannel b gamma)

/-- The spec formula `channel16 = round(clamp(value, 0, 1)^2.2 * 65535)`,
written from the spec's words for comparison with the source's computation. -/
noncomputable def gammaSpecChannel (v : ℝ) : ℤ :=
  round ((max 0 (min 1 v)) ^ (2.2 : ℝ) * 65535)

/-! ### Spec-side and test fixtures -/

/-- Written from the spec's words for C4: "`k` time-compressed copies" of a
list of events over `[0,1)` - each event compressed by `k` and the compressed
cycle repeated at offsets `i/k`. -/
def compressedCopies (k : ℕ) (evs : List LightHap) : List LightHap :=
  (List.range k).flatMap (fun i => evs.map (fun h => (h.scale k).shift ((i : ℚ) / k)))

/-- A minimal context (one light, no groups). -/
def ctx0 : LightContext := { num_lights := 1 }

/-- A context shaped like the 6-light default setup of the source, with the
`strip`/`lamps` physical groups. -/
def ctx6 : LightContext :=
  { num_lights := 6
    groups := [("all", [0, 1, 2, 3, 4, 5]), ("strip", [0, 1]), ("lamps", [2, 3, 4, 5])] }

/-- A red whole-cycle event on light 0 in cycle 0. -/
def hapRed : LightHap :=
  ⟨some ⟨0, 1⟩, ⟨0, 1⟩, { light_id := some 0, color := some ⟨0, 1, 1⟩ }⟩

/-- A blue whole-cycle event on light 0 in cycle 1. -/
def hapBlue : LightHap :=
  ⟨some ⟨1, 2⟩, ⟨1, 2⟩, { light_id := some 0, color := some ⟨2/3, 1, 1⟩ }⟩

/-- A concrete 2-cycle-periodic pattern (the behavior of
`cat(light.color(red), light.color(blue))` on the queries used below): red in
cycle 0, blue in cycle 1. -/
def altPattern : LightPattern := fun span _ =>
  if span = ⟨0, 1⟩ then [hapRed]
  else if span = ⟨1, 2⟩ then [hapBlue]
  else if span = ⟨0, 2⟩ then [hapRed, hapBlue]
  else []

/-- A concrete 1-cycle-periodic pattern on the queries used below: the same
red event, shifted, in every cycle. -/
def repPattern : LightPattern := fun span _ =>
  if span = ⟨0, 1⟩ then [hapRed]
  else if span = ⟨1, 2⟩ then [hapRed.shift 1]
  else if span = ⟨0, 2⟩ then [hapRed, hapRed.shift 1]
  else []

/-- The value relationship between a per-light event `e` produced by `seq`/
`pick` group expansion and its source event `h`: literal color, intensity,
envelope and modulator are copied, the target becomes a single light, and
`color_ref` is always `none` (dropped even when the source carried one). -/
def expandedValueOf (e h : LightHap) : Prop :=
  h.value.light_id = none
  ∧ e.value.group = none
  ∧ (∃ i, e.value.light_id = some i)
  ∧ e.value.color = h.value.color
  ∧ e.value.color_ref = none
  ∧ e.value.intensity = h.value.intensity
  ∧ e.value.envelope = h.value.envelope
  ∧ e.value.modulator = h.value.modulator

/-- A group-targeted event carrying a deferred palette reference. -/
def ghap : LightHap :=
  ⟨some ⟨0, 1⟩, ⟨0, 1⟩, { group := some "g", color_ref := some ⟨.INDEX, 2, 1, 0⟩ }⟩

/-- The constant pattern emitting `ghap`. -/
def pW : LightPattern := fun _ _ => [ghap]

/-- A 2-light context with group `g`. -/
def ctxW : LightContext := { num_lights := 2, groups := [("g", [0, 1])] }

/-- Query-window discipline of a pattern at cycle `c`: every event returned
for the full cycle has a nonempty part inside `[c, c+1)` (spec section 8,
invariant 2). -/
def partsWithin (p : LightPattern) (ctx : LightContext) (c : Int) : Prop :=
  ∀ h ∈ p ⟨(c : ℚ), (c : ℚ) + 1⟩ ctx,
    (c : ℚ) ≤ h.part.start ∧ h.part.start < h.part.stop ∧ h.part.stop ≤ (c : ℚ) + 1

/-- A trivial modulator evaluation (used to instantiate the abstract
`Modulator.get_intensity` at concrete inputs). -/
def modEvalOne : Modulator → ℚ → ℚ := fun _ _ => 1

/-- The effective intensities (`event.intensity * envelope_intensity *
modulator_intensity`) contributed to light `i` by the concurrently active
events of a query result: one entry per (event, resolved target id) pair that
targets `i`, is in range, and whose span contains the cycle position. -/
def effContribs (modEval : Modulator → ℚ → ℚ) (s : Scheduler) (cp : ℚ)
    (haps : List LightHap) (i : Int) : List ℚ :=
  haps.flatMap (fun h =>
    (lightIdsOf s.context h).filterMap (fun lid =>
      if lid = i ∧ ¬ (lid < 0 ∨ (s.context.num_lights : Int) ≤ lid)
          ∧ h.whole_or_part.contains cp
      then some (effIntensity modEval h cp) else none))

/-- The HTP accumulation over a list of effective intensities, exactly as the
per-frame loop performs it: skip below the 0.01 threshold, otherwise keep the
strictly greater value. -/
def htpStep (cur : Option ℚ) (x : ℚ) : Option ℚ :=
  if x < 1/100 then cur
  else if htpLess cur x then some x else cur

def htpFold (init : Option ℚ) (l : List ℚ) : Option ℚ := l.foldl htpStep init

/-- `m` is the maximum of the list `l`. -/
def isMaxOf (m : ℚ) (l : List ℚ) : Prop := m ∈ l ∧ ∀ x ∈ l, x ≤ m

/-- Internal well-formedness of the per-frame accumulator: colors and
intensities share a domain, all inside `[0, n)`, and all tracked keys are in
range. -/
def accWf (n : Int) (acc : FrameAcc) : Prop :=
  (∀ i, (acc.colors i).isSome ↔ (acc.intens i).isSome)
  ∧ (∀ i, (acc.colors i).isSome = true → 0 ≤ i ∧ i < n)
  ∧ (∀ kv ∈ acc.active, 0 ≤ kv.1 ∧ kv.1 < n)

/-- Every tracked `_active_events` key already has a color this frame (the
reason the second pass never overrides the first). -/
def trackedColored (acc : FrameAcc) : Prop :=
  ∀ kv ∈ acc.active, (acc.colors kv.1).isSome = true

/-- An event on light 0 with intensity 0.005, below the render threshold. -/
def dimHap : LightHap :=
  ⟨some ⟨0, 1⟩, ⟨0, 1⟩, { light_id := some 0, intensity := 1/200 }⟩

/-- The constant pattern emitting `dimHap`, and a scheduler for it. -/
def thinPattern : LightPattern := fun _ _ => [dimHap]

def schedDim : Scheduler := { pattern := thinPattern, context := ctx0 }

/-- A scheduler playing the full-intensity `hapRed` on a single light. -/
def schedRed : Scheduler := { pattern := fun _ _ => [hapRed], context := ctx0 }

/-- The cycle position computed by `compute_colors`
(`beat_position / self.cycle_beats`). -/
def frameCp (s : Scheduler) (bp : ℚ) : ℚ := bp / s.cycle_beats

/-- The haps returned by the pattern query of `compute_colors` (the
query-margin window around the cycle position). -/
def frameHaps (s : Scheduler) (bp : ℚ) : List LightHap :=
  s.pattern.query ⟨max 0 (frameCp s bp - 1/50), frameCp s bp + 1/50⟩ s.context

/-- The accumulator state after the first pass of `compute_colors`. -/
def frameAcc1 (modEval : Modulator → ℚ → ℚ) (s : Scheduler)
    (activeIn : List (Int × ActiveEvent)) (bp : ℚ) : FrameAcc :=
  s.phase1 modEval (frameCp s bp) (frameHaps s bp) ⟨fun _ => none, fun _ => none, activeIn⟩

/-- The accumulator and expired-entry list after the second pass of
`compute_colors`. -/
def frameSt2 (modEval : Modulator → ℚ → ℚ) (s : Scheduler)
    (activeIn : List (Int × ActiveEvent)) (bp : ℚ) : FrameAcc × List Int :=
  (frameAcc1 modEval s activeIn bp).active.foldl
    (s.processActive modEval (frameCp s bp)) (frameAcc1 modEval s activeIn bp, [])

/-! ## Claim theorems -/

/-- C5: `Envelope.get_intensity` is the claimed piecewise function: during
`0 ≤ τ < attack` it is 1.0 when `attack ≤ 0.05` and otherwise
`max(0.1, τ/attack)`; during `attack ≤ τ < attack + decay` it is the linear
ramp from 1.0 to `sustain`; for `τ ≥ attack + decay` it is `sustain`; and the
release intensity decays linearly from `sustain` to 0 over `release`,
returning 0 at and beyond `release`. -/
theorem envelope_intensity_piecewise (e : Envelope)
    (ha : 0 ≤ e.attack) (hd : 0 ≤ e.decay) :
    (∀ τ : ℚ, 0 ≤ τ → τ < e.attack →
      e.get_intensity τ = if e.attack ≤ 1/20 then 1 else max (1/10) (τ / e.attack))
    ∧ (∀ τ : ℚ, e.attack ≤ τ → τ < e.attack + e.decay →
      e.get_intensity τ = 1 - ((τ - e.attack) / e.decay) * (1 - e.sustain))
    ∧ (∀ τ : ℚ, e.attack + e.decay ≤ τ → e.get_intensity τ = e.sustain)
    ∧ (∀ t : ℚ, 0 ≤ t → t < e.release →
      e.get_release_intensity t = e.sustain * (1 - t / e.release))
    ∧ (∀ t : ℚ, e.release ≤ t → e.get_release_intensity t = 0) := by
  refine ⟨?_, ?_, ?_, ?_, ?_⟩
  · intro τ h0 hlt
    have hapos : 0 < e.attack := lt_of_le_of_lt h0 hlt
    rw [Envelope.get_intensity, if_neg (by linarith), if_pos hlt, if_neg (by linarith)]
    rcases le_or_lt e.attack (1/20) with hc | hc
    · rw [if_neg (by linarith), if_pos hc]
    · rw [if_pos hc, if_neg (by linarith)]
  · intro τ hge hlt
    have h0 : ¬ τ < 0 := by linarith
    have hdpos : 0 < e.decay := by linarith
    rw [Envelope.get_intensity, if_neg h0, if_neg (by linarith),
      if_pos (by linarith), if_neg (by linarith)]
  · intro τ hge
    rw [Envelope.get_intensity, if_neg (by linarith), if_neg (by linarith),
      if_neg (by linarith)]
  · intro t h0 hlt
    have hrpos : 0 < e.release := lt_of_le_of_lt h0 hlt
    rw [Envelope.get_release_intensity, if_neg (by linarith), if_neg (by linarith)]
  · intro t hge
    rcases le_or_lt e.release 0 with hr | hr
    · rw [Envelope.get_release_intensity, if_pos hr]
    · rw [Envelope.get_release_intensity, if_neg (by linarith), if_pos hge]

/-- Witness for C5: an envelope with attack 0.1, decay 1, sustain 0.5,
release 0.5, evaluated in each phase. -/
theorem envelope_intensity_piecewise_witness :
    Envelope.get_intensity { attack := 1/10, decay := 1, sustain := 1/2, release := 1/2 }
        (1/20) = 1/2
    ∧ Envelope.get_intensity { attack := 1/10, decay := 1, sustain := 1/2, release := 1/2 }
        (6/10) = 3/4
    ∧ Envelope.get_intensity { attack := 1/10, decay := 1, sustain := 1/2, release := 1/2 }
        2 = 1/2
    ∧ Envelope.get_release_intensity
        { attack := 1/10, decay := 1, sustain := 1/2, release := 1/2 } (1/4) = 1/4
    ∧ Envelope.get_release_intensity
        { attack := 1/10, decay := 1, sustain := 1/2, release := 1/2 } 1 = 0 := by
  have h := envelope_intensity_piecewise
    { attack := 1/10, decay := 1, sustain := 1/2, release := 1/2 }
    (by norm_num) (by norm_num)
  refine ⟨?_, ?_, ?_, ?_, ?_⟩
  · rw [h.1 (1/20) (by norm_num) (by norm_num)]; norm_num
  · rw [h.2.1 (6/10) (by norm_num) (by norm_num)]; norm_num
  · rw [h.2.2.1 2 (by norm_num)]
  · rw [h.2.2.2.1 (1/4) (by norm_num) (by norm_num)]; norm_num
  · exact h.2.2.2.2 1 (by norm_num)

/-- C8 counterexample: the `HSV` constructor performs no clamping or wrapping
at all, so a constructed triple can have every component outside `[0,1]`. -/
theorem hsv_no_clamp_on_construction :
    (HSV.mk (3/2) 2 (-1)).hue = 3/2 ∧ ¬ (HSV.mk (3/2) 2 (-1)).hue ≤ 1
    ∧ (HSV.mk (3/2) 2 (-1)).saturation = 2 ∧ ¬ (HSV.mk (3/2) 2 (-1)).saturation ≤ 1
    ∧ (HSV.mk (3/2) 2 (-1)).value = -1 ∧ ¬ 0 ≤ (HSV.mk (3/2) 2 (-1)).value := by
  refine ⟨rfl, show ¬ (3/2 : ℚ) ≤ 1 by norm_num, rfl,
    show ¬ (2 : ℚ) ≤ 1 by norm_num, rfl, show ¬ (0 : ℚ) ≤ -1 by norm_num⟩

/-- C8 amended: construction stores the components unchanged; clamping into
`[0,1]` happens only in the `with_saturation`/`with_value` update methods and
wrapping modulo 1 only in `with_hue`. -/
theorem hsv_update_methods_clamp (c : HSV) (h s v : ℚ) :
    (HSV.mk h s v).hue = h ∧ (HSV.mk h s v).saturation = s ∧ (HSV.mk h s v).value = v
    ∧ (0 ≤ (c.with_hue h).hue ∧ (c.with_hue h).hue < 1
        ∧ (c.with_hue h).hue = h - ⌊h⌋)
    ∧ (0 ≤ (c.with_saturation s).saturation ∧ (c.with_saturation s).saturation ≤ 1)
    ∧ (0 ≤ (c.with_value v).value ∧ (c.with_value v).value ≤ 1) := by
  refine ⟨rfl, rfl, rfl, ⟨?_, ?_, rfl⟩, ⟨?_, ?_⟩, ⟨?_, ?_⟩⟩
  · show (0:ℚ) ≤ pyMod1 h
    rw [show pyMod1 h = Int.fract h from rfl]
    exact Int.fract_nonneg h
  · show pyMod1 h < 1
    rw [show pyMod1 h = Int.fract h from rfl]
    exact Int.fract_lt_one h
  · simp [HSV.with_saturation, le_max_iff]
  · simp [HSV.with_saturation, max_le_iff, min_le_iff]
  · simp [HSV.with_value, le_max_iff]
  · simp [HSV.with_value, max_le_iff, min_le_iff]

/-- C7 counterexample: a MIDI `continue` message does not leave the beat count
and published position intact - it resets the beat count to 1 and the
published position to 0 (here from beat 5, position 4.25). -/
theorem midi_continue_resets_position :
    (handleSpecial 10 .cont ⟨7, 5, 0, 17/4, 5⟩).eng_beat_count = 1
    ∧ (handleSpecial 10 .cont ⟨7, 5, 0, 17/4, 5⟩).beat_position = 0
    ∧ (handleSpecial 10 .cont ⟨7, 5, 0, 17/4, 5⟩).beat_count = 1
    ∧ ((17 : ℚ)/4 ≠ 0 ∧ (5 : Int) ≠ 1) := by
  exact ⟨rfl, rfl, rfl, by norm_num, by norm_num⟩

/-- C7 amended: `start` resets ticks to 0, beats to 1 and the published
position to 0; `stop` changes nothing; `continue` behaves exactly like
`start` (it resets ticks to 0, beats to 1 and the position to 0, not just the
tick counter); `songpos pos` sets `beat_count = pos // 4 + 1` and
`tick_count = (pos % 4) * 6`, publishing position `pos / 4` beats. -/
theorem midi_special_message_handling (st : ClockState) (now : ℚ) (pos : Int) :
    handleSpecial now .start st =
      { st with tick_count := 0, beat_count := 1, last_beat_time := now,
                beat_position := 0, eng_beat_count := 1 }
    ∧ handleSpecial now .stop st = st
    ∧ handleSpecial now .cont st = handleSpecial now .start st
    ∧ (handleSpecial now (.songpos pos) st).beat_count = pos.fdiv 4 + 1
    ∧ (handleSpecial now (.songpos pos) st).tick_count = pos.emod 4 * 6
    ∧ (handleSpecial now (.songpos pos) st).eng_beat_count = pos.fdiv 4 + 1
    ∧ (handleSpecial now (.songpos pos) st).beat_position = (pos : ℚ) / 4 := by
  refine ⟨rfl, rfl, rfl, rfl, rfl, rfl, ?_⟩
  show ((pos.fdiv 4 + 1 - 1 : Int) : ℚ) + ((pos.emod 4 * (24 / 4) : Int) : ℚ) / 24
      = (pos : ℚ) / 4
  have hsplit : 4 * pos.ediv 4 + pos.emod 4 = pos := Int.ediv_add_emod pos 4
  have hfd : pos.fdiv 4 = pos.ediv 4 := Int.fdiv_eq_ediv pos (by norm_num)
  have hq : (pos : ℚ) = 4 * (pos.ediv 4 : ℚ) + (pos.emod 4 : ℚ) := by
    exact_mod_cast hsplit.symm
  rw [hfd]
  push_cast
  rw [hq]
  norm_num
  ring

/-- C9 counterexample: at channel value `1/32` the source emits
`int((1/32)^2.2 * 65535) = 31`, while the spec formula
`round(clamp(v,0,1)^2.2 * 65535)` gives 32. -/
theorem gamma_truncation_not_round :
    (rgb_to_rgb16 (1/32) 0 0).1 = 31 ∧ gammaSpecChannel (1/32) = 32 := by
  have hclamp : max (0:ℝ) (min 1 (1/32)) = 1/32 := by norm_num
  have hbase : ((1:ℝ)/32) = (1/2 : ℝ) ^ (5 : ℝ) := by
    rw [show (5:ℝ) = ((5:ℕ):ℝ) by norm_num, Real.rpow_natCast]
    norm_num
  have hpow : ((1:ℝ)/32) ^ (2.2 : ℝ) = 1/2048 := by
    rw [hbase, ← Real.rpow_mul (by norm_num)]
    rw [show (5:ℝ) * 2.2 = ((11:ℕ):ℝ) by norm_num, Real.rpow_natCast]
    norm_num
  constructor
  · show gammaChannel (1/32) 2.2 = 31
    rw [gammaChannel, hclamp, hpow]
    rw [show (1:ℝ)/2048 * 65535 = 65535/2048 by ring]
    rw [Int.floor_eq_iff]
    constructor <;> norm_num
  · rw [gammaSpecChannel, hclamp, hpow]
    rw [show (1:ℝ)/2048 * 65535 = 65535/2048 by ring]
    rw [round_eq]
    rw [show (65535:ℝ)/2048 + 1/2 = 66559/2048 by ring]
    rw [Int.floor_eq_iff]
    constructor <;> norm_num

/-- C9 amended: each emitted channel is the truncation
`⌊clamp(v,0,1)^2.2 * 65535⌋` (not the rounding); it never exceeds the spec's
rounded value, falls short of it by at most one, and always lies in
`[0, 65535]`. -/
theorem gamma_conversion_truncates (r g b : ℝ) :
    rgb_to_rgb16 r g b =
      (⌊(max 0 (min 1 r)) ^ (2.2:ℝ) * 65535⌋, ⌊(max 0 (min 1 g)) ^ (2.2:ℝ) * 65535⌋,
        ⌊(max 0 (min 1 b)) ^ (2.2:ℝ) * 65535⌋)
    ∧ (∀ v : ℝ, gammaChannel v 2.2 ≤ gammaSpecChannel v
        ∧ gammaSpecChannel v ≤ gammaChannel v 2.2 + 1)
    ∧ (∀ v : ℝ, 0 ≤ gammaChannel v 2.2 ∧ gammaChannel v 2.2 ≤ 65535) := by
  refine ⟨rfl, ?_, ?_⟩
  · intro v
    have key : ∀ y : ℝ, ⌊y⌋ ≤ ⌊y + 1/2⌋ ∧ ⌊y + 1/2⌋ ≤ ⌊y⌋ + 1 := by
      intro y
      refine ⟨Int.floor_le_floor (by linarith), ?_⟩
      have h2 : ⌊y + 1/2⌋ < ⌊y⌋ + 2 :=
        Int.floor_lt.mpr (by push_cast; linarith [Int.lt_floor_add_one y])
      omega
    constructor
    · rw [gammaChannel, gammaSpecChannel, round_eq]
      exact (key _).1
    · rw [gammaChannel, gammaSpecChannel, round_eq]
      exact (key _).2
  · intro v
    have h0 : (0:ℝ) ≤ max 0 (min 1 v) := le_max_left _ _
    have h1 : max 0 (min 1 v) ≤ 1 := by
      rcases le_or_lt (min 1 v) 0 with h | h
      · simp [max_le_iff, h]
      · simp [max_le_iff, min_le_left]
    have hp0 : (0:ℝ) ≤ (max 0 (min 1 v)) ^ (2.2:ℝ) := Real.rpow_nonneg h0 _
    have hp1 : (max 0 (min 1 v)) ^ (2.2:ℝ) ≤ 1 := Real.rpow_le_one h0 h1 (by norm_num)
    constructor
    · rw [gammaChannel]
      exact Int.le_floor.mpr (by push_cast; nlinarith)
    · rw [gammaChannel]
      have : (max 0 (min 1 v)) ^ (2.2:ℝ) * 65535 ≤ 65535 := by nlinarith
      calc ⌊(max 0 (min 1 v)) ^ (2.2:ℝ) * 65535⌋ ≤ ⌊(65535:ℝ)⌋ := Int.floor_le_floor this
        _ = 65535 := by norm_num

/-- Unfolding of `PaletteRef.resolve` in `RANDOM_HOLD` mode at a known cycle
position. -/
theorem resolve_random_hold (pal : Palette) (i : Int) (h bl : ℚ) (e : Int) (cp : ℚ) :
    (PaletteRef.mk .RANDOM_HOLD i h bl).resolve pal e (some cp) =
      pal.get ((pyShuffle 42 (List.range pal.colors.length)).getD
        (((pyInt (cp * 4 / h)).emod
          (pyShuffle 42 (List.range pal.colors.length)).length).toNat) 0) := rfl

/-- C6: `RandomHold(h)` resolution against a fixed palette of `n` colors:
(1) all resolutions whose beat position lies in the same `h`-beat window (same
`⌊pos_beats / h⌋`) give the same color, independent of the event index;
(2) the indices list is a fixed-seed shuffled permutation of the palette
indices, and the color is obtained by indexing it with the quantized window
index modulo `n`; (3) consecutive windows never repeat a color before the
shuffled sequence wraps (palette colors distinct, `n ≥ 2`). -/
theorem random_hold_palette_resolution (pal : Palette) (i : Int) (h bl : ℚ)
    (hh : 0 < h) :
    (∀ (e1 e2 : Int) (a b : ℚ), 0 ≤ a → 0 ≤ b → ⌊a * 4 / h⌋ = ⌊b * 4 / h⌋ →
      (PaletteRef.mk .RANDOM_HOLD i h bl).resolve pal e1 (some a) =
        (PaletteRef.mk .RANDOM_HOLD i h bl).resolve pal e2 (some b))
    ∧ (pyShuffle 42 (List.range pal.colors.length)).Perm (List.range pal.colors.length)
    ∧ (∀ (e : Int) (a : ℚ), 0 ≤ a →
      (PaletteRef.mk .RANDOM_HOLD i h bl).resolve pal e (some a) =
        pal.get ((pyShuffle 42 (List.range pal.colors.length)).getD
          ((⌊a * 4 / h⌋.emod
            (pyShuffle 42 (List.range pal.colors.length)).length).toNat) 0))
    ∧ (∀ (e1 e2 : Int) (a b : ℚ) (w : Int), pal.colors.Nodup →
      2 ≤ pal.colors.length → 0 ≤ a → 0 ≤ b →
      ⌊a * 4 / h⌋ = w → ⌊b * 4 / h⌋ = w + 1 →
      w % (pal.colors.length : Int) ≠ (pal.colors.length : Int) - 1 →
      (PaletteRef.mk .RANDOM_HOLD i h bl).resolve pal e1 (some a) ≠
        (PaletteRef.mk .RANDOM_HOLD i h bl).resolve pal e2 (some b)) := by
  have hq : ∀ a : ℚ, 0 ≤ a → pyInt (a * 4 / h) = ⌊a * 4 / h⌋ := by
    intro a ha
    exact pyInt_eq_floor_of_nonneg (div_nonneg (by linarith) hh.le)
  have hperm : (pyShuffle 42 (List.range pal.colors.length)).Perm
      (List.range pal.colors.length) := pyShuffle_perm _ _
  have hlen : (pyShuffle 42 (List.range pal.colors.length)).length =
      pal.colors.length := by rw [hperm.length_eq, List.length_range]
  have hform : ∀ (e : Int) (a : ℚ), 0 ≤ a →
      (PaletteRef.mk .RANDOM_HOLD i h bl).resolve pal e (some a) =
        pal.get ((pyShuffle 42 (List.range pal.colors.length)).getD
          ((⌊a * 4 / h⌋.emod
            (pyShuffle 42 (List.range pal.colors.length)).length).toNat) 0) := by
    intro e a ha
    rw [resolve_random_hold, hq a ha]
  refine ⟨?_, hperm, hform, ?_⟩
  · intro e1 e2 a b ha hb hw
    rw [hform e1 a ha, hform e2 b hb, hw]
  · intro e1 e2 a b w hnd hn2 ha hb hwa hwb hnowrap
    have h2i : (2 : Int) ≤ (pal.colors.length : Int) := by exact_mod_cast hn2
    have hn0 : (pal.colors.length : Int) ≠ 0 := by omega
    have hnpos : (0 : Int) < (pal.colors.length : Int) := by omega
    have hwem0 : 0 ≤ w % (pal.colors.length : Int) := Int.emod_nonneg w hn0
    have hwemlt : w % (pal.colors.length : Int) < (pal.colors.length : Int) :=
      Int.emod_lt_of_pos w hnpos
    have hwlt : w % (pal.colors.length : Int) < (pal.colors.length : Int) - 1 :=
      lt_of_le_of_ne (by omega) hnowrap
    rw [hform e1 a ha, hform e2 b hb, hwa, hwb]
    simp only [hlen, emod_eq_mod]
    have hsucc : (w + 1) % (pal.colors.length : Int) =
        w % (pal.colors.length : Int) + 1 := by
      have h1n : (1 : Int) % (pal.colors.length : Int) = 1 :=
        Int.emod_eq_of_lt (by norm_num) (by omega)
      rw [Int.add_emod, h1n]
      exact Int.emod_eq_of_lt (by omega) (by omega)
    rw [hsucc]
    have htn : (w % (pal.colors.length : Int) + 1).toNat =
        (w % (pal.colors.length : Int)).toNat + 1 := by omega
    rw [htn]
    set idxs := pyShuffle 42 (List.range pal.colors.length) with hidxs
    set iw : ℕ := (w % (pal.colors.length : Int)).toNat with hiw
    have hiwn : iw < pal.colors.length := by omega
    have hiw1n : iw + 1 < pal.colors.length := by omega
    have hidxnd : idxs.Nodup := hperm.nodup_iff.mpr (List.nodup_range _)
    have hlt1 : iw < idxs.length := by omega
    have hlt2 : iw + 1 < idxs.length := by omega
    rw [List.getD_eq_getElem idxs 0 hlt1, List.getD_eq_getElem idxs 0 hlt2]
    have hne : idxs[iw] ≠ idxs[iw + 1] := by
      intro hcontra
      have := (@List.Nodup.getElem_inj_iff ℕ idxs hidxnd iw hlt1 (iw + 1) hlt2).mp hcontra
      omega
    have hv1 : idxs[iw] < pal.colors.length := by
      have hm : idxs[iw] ∈ idxs := List.getElem_mem hlt1
      exact List.mem_range.mp (hperm.mem_iff.mp hm)
    have hv2 : idxs[iw + 1] < pal.colors.length := by
      have hm : idxs[iw + 1] ∈ idxs := List.getElem_mem hlt2
      exact List.mem_range.mp (hperm.mem_iff.mp hm)
    have hget : ∀ v : ℕ, (hv : v < pal.colors.length) →
        pal.get (v : Int) = pal.colors[v] := by
      intro v hv
      rw [Palette.get, emod_eq_mod]
      rw [Int.emod_eq_of_lt (by positivity) (by exact_mod_cast hv)]
      simp only [Int.toNat_natCast]
      exact List.getD_eq_getElem pal.colors ⟨0, 1, 1⟩ hv
    intro hcontra
    apply hne
    rw [hget _ hv1, hget _ hv2] at hcontra
    exact (@List.Nodup.getElem_inj_iff HSV pal.colors hnd _ hv1 _ hv2).mp hcontra

/-- Witness for C6: the rainbow-like 3-color palette, hold 2 beats.  Positions
0 and 1/4 cycles (beats 0 and 1) share the window and color; beats 0 and 2
fall in consecutive windows and get different colors. -/
theorem random_hold_palette_resolution_witness :
    (PaletteRef.mk .RANDOM_HOLD 0 2 0).resolve
        ⟨"w", [⟨0, 1, 1⟩, ⟨1/3, 1, 1⟩, ⟨2/3, 1, 1⟩]⟩ 0 (some 0) =
      (PaletteRef.mk .RANDOM_HOLD 0 2 0).resolve
        ⟨"w", [⟨0, 1, 1⟩, ⟨1/3, 1, 1⟩, ⟨2/3, 1, 1⟩]⟩ 7 (some (1/4))
    ∧ (PaletteRef.mk .RANDOM_HOLD 0 2 0).resolve
        ⟨"w", [⟨0, 1, 1⟩, ⟨1/3, 1, 1⟩, ⟨2/3, 1, 1⟩]⟩ 0 (some 0) ≠
      (PaletteRef.mk .RANDOM_HOLD 0 2 0).resolve
        ⟨"w", [⟨0, 1, 1⟩, ⟨1/3, 1, 1⟩, ⟨2/3, 1, 1⟩]⟩ 0 (some (1/2)) := by
  have h := random_hold_palette_resolution ⟨"w", [⟨0, 1, 1⟩, ⟨1/3, 1, 1⟩, ⟨2/3, 1, 1⟩]⟩
    0 2 0 (by norm_num)
  constructor
  · exact h.1 0 7 0 (1/4) (by norm_num) (by norm_num) (by norm_num)
  · exact h.2.2.2 0 0 0 (1/2) 0 (by norm_num [HSV.mk.injEq]) (by norm_num)
      (by norm_num) (by norm_num) (by norm_num) (by norm_num) (by decide)

theorem timespan_scale_mul (s : TimeSpan) (a b : ℚ) :
    (s.scale a).scale b = s.scale (a * b) := by
  simp only [TimeSpan.scale, TimeSpan.mk.injEq]
  constructor <;> ring

theorem timespan_scale_one (s : TimeSpan) : s.scale 1 = s := by
  simp [TimeSpan.scale]

theorem timespan_shift_scale (s : TimeSpan) (i k : ℚ) :
    (s.shift i).scale k = (s.scale k).shift (i * k) := by
  simp only [TimeSpan.shift, TimeSpan.scale, TimeSpan.mk.injEq]
  constructor <;> ring

theorem hap_scale_cancel (h : LightHap) (k : ℚ) (hk : k ≠ 0) :
    (h.scale k).scale k⁻¹ = h := by
  have hsp : ∀ s : TimeSpan, (s.scale k⁻¹).scale k = s := by
    intro s
    rw [timespan_scale_mul, inv_mul_cancel₀ hk, timespan_scale_one]
  cases h with
  | mk w p v => cases w <;> simp [LightHap.scale, inv_inv, hsp]

theorem hap_shift_scale (h : LightHap) (i k : ℚ) :
    (h.shift i).scale k = (h.scale k).shift (i * k⁻¹) := by
  cases h with
  | mk w p v => cases w <;> simp [LightHap.shift, LightHap.scale, timespan_shift_scale]

/-- C4 counterexample: for the 2-cycle-periodic pattern `altPattern` (red in
cycle 0, blue in cycle 1), the events of `p.fast(2)` over `[0,1)` are red then
blue, but "2 time-compressed copies of p's events" are red twice - the claim's
third part fails for patterns that are not 1-cycle-periodic (such as `cat`). -/
theorem fast_copies_counterexample :
    ((altPattern.fast 2) ⟨0, 1⟩ ctx0).map (fun h => (h.part.start, h.part.stop, h.value.color))
      = [(0, 1/2, some ⟨0, 1, 1⟩), (1/2, 1, some ⟨2/3, 1, 1⟩)]
    ∧ (compressedCopies 2 (altPattern ⟨0, 1⟩ ctx0)).map
        (fun h => (h.part.start, h.part.stop, h.value.color))
      = [(0, 1/2, some ⟨0, 1, 1⟩), (1/2, 1, some ⟨0, 1, 1⟩)]
    ∧ (some (⟨2/3, 1, 1⟩ : HSV) ≠ some ⟨0, 1, 1⟩) := by
  refine ⟨?_, ?_, by simp [HSV.mk.injEq]⟩
  · show ((altPattern ((⟨0,1⟩ : TimeSpan).scale 2) ctx0).map (·.scale 2)).map _ = _
    rw [show (⟨0,1⟩ : TimeSpan).scale 2 = ⟨0, 2⟩ by simp [TimeSpan.scale]]
    rw [show altPattern ⟨0, 2⟩ ctx0 = [hapRed, hapBlue] by
      simp [altPattern, TimeSpan.mk.injEq]]
    simp [hapRed, hapBlue, LightHap.scale, TimeSpan.scale]
  · rw [show altPattern ⟨0, 1⟩ ctx0 = [hapRed] by simp [altPattern]]
    simp [compressedCopies, List.range_succ, hapRed, LightHap.scale, LightHap.shift,
      TimeSpan.scale, TimeSpan.shift]
    norm_num

/-- C4 amended: `p.fast(k).fast(1/k)` returns exactly `p`'s events over every
query span for every rational `k > 0`, and `slow(k)` queries identically to
`fast(1/k)`; the "k time-compressed copies over `[0,1)`" description holds for
the patterns it was written about - those that are 1-cycle-periodic and
additive over the cycles of `[0,k)` (but not for arbitrary patterns, see the
counterexample). -/
theorem fast_slow_time_scaling (p : LightPattern) (span : TimeSpan) (ctx : LightContext) :
    (∀ k : ℚ, 0 < k → (p.fast k).fast k⁻¹ span ctx = p span ctx)
    ∧ (∀ k : ℚ, p.slow k span ctx = p.fast k⁻¹ span ctx)
    ∧ (∀ k : ℕ, 1 ≤ k →
        p ⟨0, (k : ℚ)⟩ ctx = (List.range k).flatMap (fun i => p ⟨(i : ℚ), (i : ℚ) + 1⟩ ctx) →
        (∀ i : ℕ, i < k → p ⟨(i : ℚ), (i : ℚ) + 1⟩ ctx = (p ⟨0, 1⟩ ctx).map (·.shift (i : ℚ))) →
        (p.fast k) ⟨0, 1⟩ ctx = compressedCopies k (p ⟨0, 1⟩ ctx)) := by
  refine ⟨?_, fun k => rfl, ?_⟩
  · intro k hk
    show ((p ((span.scale k⁻¹).scale k) ctx).map (·.scale k)).map (·.scale k⁻¹) = p span ctx
    rw [timespan_scale_mul, inv_mul_cancel₀ (ne_of_gt hk), timespan_scale_one]
    rw [List.map_map]
    have hmap : List.map ((fun x => LightHap.scale x k⁻¹) ∘ fun x => LightHap.scale x k)
        (p span ctx) = List.map id (p span ctx) :=
      List.map_congr_left (fun h _ => hap_scale_cancel h k (ne_of_gt hk))
    rw [hmap]
    exact List.map_id _
  · intro k hk hadd hper
    show (p ((⟨0,1⟩ : TimeSpan).scale (k : ℚ)) ctx).map (·.scale (k : ℚ)) = _
    rw [show (⟨0,1⟩ : TimeSpan).scale (k : ℚ) = ⟨0, (k : ℚ)⟩ by simp [TimeSpan.scale]]
    rw [hadd, List.map_flatMap, compressedCopies]
    refine List.flatMap_congr ?_
    intro i hi
    rw [hper i (List.mem_range.mp hi), List.map_map]
    refine List.map_congr_left ?_
    intro h _
    show (h.shift (i : ℚ)).scale (k : ℚ) = (h.scale (k : ℚ)).shift ((i : ℚ) / k)
    rw [hap_shift_scale, div_eq_mul_inv]

/-- Witness for C4: the 1-cycle-periodic `repPattern` at `k = 2` satisfies the
periodicity and additivity hypotheses, and its `fast(2)` events over `[0,1)`
are exactly the 2 time-compressed copies. -/
theorem fast_slow_time_scaling_witness :
    (repPattern.fast 2) ⟨0, 1⟩ ctx0 = compressedCopies 2 (repPattern ⟨0, 1⟩ ctx0) := by
  have h := (fast_slow_time_scaling repPattern ⟨0, 1⟩ ctx0).2.2 2 (by norm_num)
  apply h
  · show repPattern ⟨0, (2:ℚ)⟩ ctx0 = _
    rw [show repPattern ⟨0, 2⟩ ctx0 = [hapRed, hapRed.shift 1] by
      simp [repPattern, TimeSpan.mk.injEq]]
    rw [List.range_succ, List.range_succ]
    simp only [List.range_zero, List.nil_append, List.cons_append,
      List.flatMap_cons, List.flatMap_nil]
    rw [show repPattern ⟨((0:ℕ):ℚ), ((0:ℕ):ℚ) + 1⟩ ctx0 = [hapRed] by
      norm_num [repPattern, TimeSpan.mk.injEq]]
    rw [show repPattern ⟨((1:ℕ):ℚ), ((1:ℕ):ℚ) + 1⟩ ctx0 = [hapRed.shift 1] by
      norm_num [repPattern, TimeSpan.mk.injEq]]
    simp
  · intro i hi
    interval_cases i
    · rw [show repPattern ⟨((0:ℕ):ℚ), ((0:ℕ):ℚ) + 1⟩ ctx0 = [hapRed] by
        norm_num [repPattern, TimeSpan.mk.injEq]]
      rw [show repPattern ⟨(0:ℚ), (1:ℚ)⟩ ctx0 = [hapRed] by
        norm_num [repPattern, TimeSpan.mk.injEq]]
      simp [hapRed, LightHap.shift, TimeSpan.shift]
    · rw [show repPattern ⟨((1:ℕ):ℚ), ((1:ℕ):ℚ) + 1⟩ ctx0 = [hapRed.shift 1] by
        norm_num [repPattern, TimeSpan.mk.injEq]]
      rw [show repPattern ⟨(0:ℚ), (1:ℚ)⟩ ctx0 = [hapRed] by
        norm_num [repPattern, TimeSpan.mk.injEq]]
      simp

theorem filterMap_eq_self {α : Type} (l : List α) (f : α → Option α)
    (h : ∀ x ∈ l, f x = some x) : l.filterMap f = l := by
  induction l with
  | nil => rfl
  | cons a t ih =>
    rw [List.filterMap_cons, h a (List.mem_cons_self a t)]
    rw [ih (fun x hx => h x (List.mem_cons_of_mem a hx))]

/-- Every event of the per-cycle shuffled assignment takes its whole/part
timing from some event of the underlying full-cycle query. -/
theorem shuffledCycle_timing_from (p : LightPattern) (seed : Option Int)
    (ctx : LightContext) (cycle : Int) :
    ∀ x ∈ shuffledCycle p seed ctx cycle,
      ∃ h ∈ p ⟨(cycle : ℚ), (cycle : ℚ) + 1⟩ ctx, x.whole = h.whole ∧ x.part = h.part := by
  intro x hx
  unfold shuffledCycle at hx
  by_cases hlen : (p.query ⟨(cycle : ℚ), (cycle : ℚ) + 1⟩ ctx).length ≤ 1
  · rw [if_pos hlen] at hx
    exact ⟨x, hx, rfl, rfl⟩
  · rw [if_neg hlen] at hx
    rw [List.mem_map] at hx
    obtain ⟨tv, htv, hmk⟩ := hx
    have h1 := (List.of_mem_zip htv).1
    rw [List.mem_map] at h1
    obtain ⟨h, hh, hproj⟩ := h1
    have hmem : h ∈ p.query ⟨(cycle : ℚ), (cycle : ℚ) + 1⟩ ctx :=
      (List.mergeSort_perm _ _).subset hh
    refine ⟨h, hmem, ?_, ?_⟩
    · rw [← hmk, ← hproj]
    · rw [← hmk, ← hproj]

/-- The per-cycle shuffled assignment keeps the multiset of whole/part
timings and permutes the multiset of values. -/
theorem shuffledCycle_proj_perm (p : LightPattern) (seed : Option Int)
    (ctx : LightContext) (cycle : Int) :
    ((shuffledCycle p seed ctx cycle).map (fun h => (h.whole, h.part))).Perm
      ((p ⟨(cycle : ℚ), (cycle : ℚ) + 1⟩ ctx).map (fun h => (h.whole, h.part)))
    ∧ ((shuffledCycle p seed ctx cycle).map (·.value)).Perm
      ((p ⟨(cycle : ℚ), (cycle : ℚ) + 1⟩ ctx).map (·.value)) := by
  unfold shuffledCycle
  by_cases hlen : (p.query ⟨(cycle : ℚ), (cycle : ℚ) + 1⟩ ctx).length ≤ 1
  · rw [if_pos hlen]
    exact ⟨List.Perm.refl _, List.Perm.refl _⟩
  · rw [if_neg hlen]
    have hsort := List.mergeSort_perm (p.query ⟨(cycle : ℚ), (cycle : ℚ) + 1⟩ ctx)
      (fun a b => keyLE (sortKey a) (sortKey b))
    set rngSeed : Int := (match seed with | none => cycle | some s => s + cycle) with hrs
    set sorted := (p.query ⟨(cycle : ℚ), (cycle : ℚ) + 1⟩ ctx).mergeSort
      (fun a b => keyLE (sortKey a) (sortKey b)) with hsorted
    set timings := sorted.map (fun h => (h.whole, h.part)) with htimings
    set values := sorted.map (·.value) with hvalues
    set shuffled := pyShuffle rngSeed values with hshuffled
    have hshperm : shuffled.Perm values := pyShuffle_perm rngSeed values
    have hlshuf : shuffled.length = values.length := hshperm.length_eq
    have hltv : timings.length = values.length := by
      rw [htimings, hvalues, List.length_map, List.length_map]
    constructor
    · rw [List.map_map]
      have hfst : ((timings.zip shuffled).map ((fun h => (h.whole, h.part)) ∘
            (fun tv => LightHap.mk tv.1.1 tv.1.2 tv.2))) =
          (timings.zip shuffled).map Prod.fst := rfl
      rw [hfst, List.map_fst_zip _ _ (by rw [hlshuf, hltv])]
      rw [htimings]
      exact hsort.map _
    · rw [List.map_map]
      have hsnd : ((timings.zip shuffled).map ((fun h => h.value) ∘
            (fun tv => LightHap.mk tv.1.1 tv.1.2 tv.2))) =
          (timings.zip shuffled).map Prod.snd := rfl
      rw [hsnd, List.map_snd_zip _ _ (by rw [hlshuf, hltv])]
      refine hshperm.trans ?_
      rw [hvalues]
      exact hsort.map _

/-- Clipping to a span left of all parts yields nothing. -/
theorem filterToSpan_eq_nil (s : TimeSpan) (l : List LightHap)
    (h : ∀ x ∈ l, s.stop ≤ x.part.start) : filterToSpan s l = [] := by
  rw [filterToSpan, List.filterMap_eq_nil_iff]
  intro x hx
  rw [TimeSpan.intersection]
  rw [if_neg]
  · rfl
  · push_neg
    refine le_trans (min_le_right _ _) (le_trans (h x hx) (le_max_left _ _))

/-- Clipping to the full cycle span is the identity on events whose parts are
nonempty and inside the cycle. -/
theorem filterToSpan_full (c : Int) (l : List LightHap)
    (h : ∀ x ∈ l, (c : ℚ) ≤ x.part.start ∧ x.part.start < x.part.stop ∧
      x.part.stop ≤ (c : ℚ) + 1) :
    filterToSpan ⟨(c : ℚ), (c : ℚ) + 1⟩ l = l := by
  refine filterMap_eq_self _ _ ?_
  intro x hx
  obtain ⟨h1, h2, h3⟩ := h x hx
  rw [TimeSpan.intersection]
  simp only [max_eq_left h1, min_eq_left h3]
  rw [if_pos h2]
  rfl

/-- C3: for a pattern obeying the query-window discipline at cycles `c` and
`c+1`, `p.shuffle(seed)` over the full cycle `[c, c+1)` has exactly the same
multiset of whole/part timings as `p` and a permutation of `p`'s values; and
every query of a window inside cycle `c` returns exactly the span-clipped
restriction of one span-independent full-cycle shuffled assignment
(`shuffledCycle p seed ctx c`), so any two windows in the same cycle observe
the same permutation. -/
theorem shuffle_per_cycle_permutation (p : LightPattern) (ctx : LightContext)
    (seed : Option Int) (c : Int) (hc0 : 0 ≤ c)
    (hc : partsWithin p ctx c) (hc1 : partsWithin p ctx (c + 1)) :
    (((p.shuffle seed) ⟨(c : ℚ), (c : ℚ) + 1⟩ ctx).map (fun h => (h.whole, h.part))).Perm
      ((p ⟨(c : ℚ), (c : ℚ) + 1⟩ ctx).map (fun h => (h.whole, h.part)))
    ∧ (((p.shuffle seed) ⟨(c : ℚ), (c : ℚ) + 1⟩ ctx).map (·.value)).Perm
      ((p ⟨(c : ℚ), (c : ℚ) + 1⟩ ctx).map (·.value))
    ∧ (∀ s : TimeSpan, (c : ℚ) ≤ s.start → s.start < s.stop → s.stop ≤ (c : ℚ) + 1 →
      (p.shuffle seed) s ctx = filterToSpan s (shuffledCycle p seed ctx c)) := by
  have hq0 : (0 : ℚ) ≤ (c : ℚ) := by exact_mod_cast hc0
  have hscparts : ∀ x ∈ shuffledCycle p seed ctx c,
      (c : ℚ) ≤ x.part.start ∧ x.part.start < x.part.stop ∧ x.part.stop ≤ (c : ℚ) + 1 := by
    intro x hx
    obtain ⟨h, hh, _, hpart⟩ := shuffledCycle_timing_from p seed ctx c x hx
    rw [hpart]
    exact hc h hh
  have hmain : ∀ s : TimeSpan, (c : ℚ) ≤ s.start → s.start < s.stop →
      s.stop ≤ (c : ℚ) + 1 →
      (p.shuffle seed) s ctx = filterToSpan s (shuffledCycle p seed ctx c) := by
    intro s hs1 hs2 hs3
    show (intRange (pyInt s.start) (pyInt s.stop + 1)).flatMap
      (fun cycle => filterToSpan s (shuffledCycle p seed ctx cycle)) = _
    have hstart : pyInt s.start = c := by
      rw [pyInt_eq_floor_of_nonneg (le_trans hq0 hs1)]
      rw [Int.floor_eq_iff]
      exact ⟨hs1, lt_of_lt_of_le hs2 hs3⟩
    rcases lt_or_eq_of_le hs3 with hlt | heq
    · have hstop : pyInt s.stop = c := by
        rw [pyInt_eq_floor_of_nonneg (le_trans hq0 (le_of_lt (lt_of_le_of_lt hs1 hs2)))]
        rw [Int.floor_eq_iff]
        exact ⟨le_of_lt (lt_of_le_of_lt hs1 hs2), hlt⟩
      rw [hstart, hstop]
      rw [show intRange c (c + 1) = [c] by
        rw [intRange, show (c + 1 - c) = (1 : Int) by ring]
        rw [show ((1 : Int)).toNat = 1 from rfl, show List.range 1 = [0] from rfl]
        simp]
      simp
    · have hstop : pyInt s.stop = c + 1 := by
        rw [heq, pyInt_eq_floor_of_nonneg (by linarith)]
        rw [Int.floor_eq_iff]
        push_cast
        constructor <;> linarith
      rw [hstart, hstop]
      rw [show intRange c (c + 1 + 1) = [c, c + 1] by
        rw [intRange, show (c + 1 + 1 - c) = (2 : Int) by ring]
        rw [show ((2 : Int)).toNat = 2 from rfl]
        rw [show List.range 2 = [0, 1] from rfl]
        simp]
      have hnil : filterToSpan s (shuffledCycle p seed ctx (c + 1)) = [] := by
        refine filterToSpan_eq_nil s _ ?_
        intro x hx
        obtain ⟨h, hh, _, hpart⟩ := shuffledCycle_timing_from p seed ctx (c + 1) x hx
        rw [hpart]
        have := (hc1 h hh).1
        rw [heq]
        refine le_trans (le_of_eq ?_) this
        push_cast
        ring
      rw [List.flatMap_cons, List.flatMap_cons, List.flatMap_nil, hnil]
      simp
  have hfull : (p.shuffle seed) ⟨(c : ℚ), (c : ℚ) + 1⟩ ctx = shuffledCycle p seed ctx c := by
    rw [hmain ⟨(c : ℚ), (c : ℚ) + 1⟩ (le_refl _)
      (show (c : ℚ) < (c : ℚ) + 1 by linarith) (le_refl _)]
    exact filterToSpan_full c _ hscparts
  refine ⟨?_, ?_, hmain⟩
  · rw [hfull]
    exact (shuffledCycle_proj_perm p seed ctx c).1
  · rw [hfull]
    exact (shuffledCycle_proj_perm p seed ctx c).2

/-- Witness for C3: `repPattern` obeys the window discipline at cycles 0
and 1; shuffling it keeps timing and value multisets over `[0,1)`, and the
window `[0,1/2)` observes the clipped full-cycle assignment. -/
theorem shuffle_per_cycle_permutation_witness :
    (((repPattern.shuffle none) ⟨(0 : ℚ), (0 : ℚ) + 1⟩ ctx0).map (·.value)).Perm
      ((repPattern ⟨(0 : ℚ), (0 : ℚ) + 1⟩ ctx0).map (·.value))
    ∧ (repPattern.shuffle none) ⟨0, 1/2⟩ ctx0 =
      filterToSpan ⟨0, 1/2⟩ (shuffledCycle repPattern none ctx0 0) := by
  have hd0 : partsWithin repPattern ctx0 0 := by
    intro e he
    rw [show ((((0 : Int) : ℚ)) : ℚ) = 0 by norm_num] at he
    rw [show repPattern ⟨(0 : ℚ), (0 : ℚ) + 1⟩ ctx0 = [hapRed] by
      norm_num [repPattern, TimeSpan.mk.injEq]] at he
    rw [List.mem_singleton] at he
    subst he
    norm_num [hapRed]
  have hd1 : partsWithin repPattern ctx0 (0 + 1) := by
    intro e he
    rw [show repPattern ⟨((0 + 1 : Int) : ℚ), ((0 + 1 : Int) : ℚ) + 1⟩ ctx0 =
        [hapRed.shift 1] by
      norm_num [repPattern, TimeSpan.mk.injEq, hapRed, LightHap.shift, TimeSpan.shift]] at he
    rw [List.mem_singleton] at he
    subst he
    norm_num [hapRed, LightHap.shift, TimeSpan.shift]
  have h := shuffle_per_cycle_permutation repPattern ctx0 none 0 (le_refl 0) hd0 hd1
  constructor
  · have h1 := h.2.1
    norm_num at h1
    norm_num
    exact h1
  · have h3 := h.2.2 ⟨0, 1/2⟩ (by norm_num) (by norm_num) (by norm_num)
    exact h3

/-- C10: every per-light event produced by `seq()` or `pick()` from a
group-targeted source event copies the source's literal color, intensity,
envelope and modulator but always has `color_ref = none` - deferred palette
references are silently dropped - and at render time an event with neither a
literal color nor a `color_ref` resolves to the scheduler's default color. -/
theorem group_expansion_drops_palette_refs (p : LightPattern) (ctx : LightContext)
    (span : TimeSpan) (slots : Option Nat) (per_group : Bool) (mn : PyNum)
    (mx : Option PyNum) (seed : Option Int) (hold : Option ℚ) :
    (∀ e ∈ (p.seq slots per_group) span ctx,
      e ∈ p span ctx ∨
        ∃ h ∈ p span ctx, groupTruthy h.value.group = true ∧ expandedValueOf e h)
    ∧ (∀ e ∈ (p.pick mn mx seed hold) span ctx,
      e ∈ p span ctx ∨ ∃ h ∈ p span ctx, expandedValueOf e h)
    ∧ (∀ (s : Scheduler) (idx : Int) (cp : ℚ),
        s.resolveColor none none idx cp = s.default_color) := by
  refine ⟨?_, ?_, fun s idx cp => rfl⟩
  · intro e he
    simp only [LightPattern.seq, LightPattern.query] at he
    rw [List.mem_flatMap] at he
    obtain ⟨h, hh, he⟩ := he
    by_cases hc : (groupTruthy h.value.group && h.value.light_id.isNone) = true
    · right
      rw [if_pos hc] at he
      rw [Bool.and_eq_true] at hc
      refine ⟨h, hh, hc.1, ?_⟩
      rw [List.mem_flatMap] at he
      obtain ⟨lights, _, he⟩ := he
      by_cases hl : lights = []
      · rw [if_pos hl] at he
        exact absurd he (List.not_mem_nil _)
      · rw [if_neg hl] at he
        rw [List.mem_filterMap] at he
        obtain ⟨slot, _, hslot⟩ := he
        rw [Option.map_eq_some'] at hslot
        obtain ⟨inter, _, hemk⟩ := hslot
        subst hemk
        exact ⟨Option.isNone_iff_eq_none.mp hc.2, rfl, ⟨_, rfl⟩, rfl, rfl, rfl, rfl, rfl⟩
    · left
      rw [if_neg hc] at he
      rw [List.mem_singleton] at he
      exact he ▸ hh
  · intro e he
    simp only [LightPattern.pick, LightPattern.query] at he
    rw [List.mem_flatMap] at he
    obtain ⟨h, hh, he⟩ := he
    by_cases hs : h.value.light_id.isSome = true
    · left
      rw [if_pos hs] at he
      rw [List.mem_singleton] at he
      exact he ▸ hh
    · right
      rw [if_neg hs] at he
      have hnone : h.value.light_id = none := by
        cases hid : h.value.light_id
        · rfl
        · rw [hid] at hs; simp at hs
      by_cases hl : (if groupTruthy h.value.group = true then
          ctx.resolve_group (h.value.group.getD "") else intRange 0 ctx.num_lights) = []
      · rw [if_pos hl] at he
        exact absurd he (List.not_mem_nil _)
      · rw [if_neg hl] at he
        rw [List.mem_map] at he
        obtain ⟨lid, _, hemk⟩ := he
        subst hemk
        exact ⟨h, hh, hnone, rfl, ⟨_, rfl⟩, rfl, rfl, rfl, rfl, rfl⟩

set_option maxHeartbeats 1000000 in
/-- Witness for C10: the theorem applied to `ghap` (group `g`, palette
reference attached) expanded by `seq()` and by `pick()`, at the first produced
per-light event of each. -/
theorem group_expansion_drops_palette_refs_witness :
    ((⟨some ⟨0, 1/4⟩, ⟨0, 1/4⟩,
        { light_id := some 0, group := none, color := none,
          intensity := 1, envelope := none, modulator := none }⟩ : LightHap) ∈ pW ⟨0, 1⟩ ctxW
      ∨ ∃ h ∈ pW ⟨0, 1⟩ ctxW, groupTruthy h.value.group = true ∧
          expandedValueOf ⟨some ⟨0, 1/4⟩, ⟨0, 1/4⟩,
            { light_id := some 0, group := none, color := none,
              intensity := 1, envelope := none, modulator := none }⟩ h)
    ∧ ((⟨some ⟨0, 1⟩, ⟨0, 1⟩,
        { light_id := some 0, group := none, color := none,
          intensity := 1, envelope := none, modulator := none }⟩ : LightHap) ∈ pW ⟨0, 1⟩ ctxW
      ∨ ∃ h ∈ pW ⟨0, 1⟩ ctxW,
          expandedValueOf ⟨some ⟨0, 1⟩, ⟨0, 1⟩,
            { light_id := some 0, group := none, color := none,
              intensity := 1, envelope := none, modulator := none }⟩ h) := by
  constructor
  · refine (group_expansion_drops_palette_refs pW ctxW ⟨0, 1⟩ none true
      (.int 1) none none none).1 _ ?_
    norm_num [LightPattern.seq, LightPattern.query, pW, ctxW, ghap, groupTruthy,
      (by decide : ¬ ("g" : String) = ""), (by decide : ¬ ("g" : String) = "all"),
      (by decide : ¬ ("g" : String) = "strip"), (by decide : ¬ ("g" : String) = "lamps"),
      (by decide : ¬ ("g" : String) = "ambient"),
      LightContext.resolve_group, seqSlots, pyInt, TimeSpan.intersection,
      TimeSpan.duration, LightHap.whole_or_part, List.range_succ, emod_eq_mod,
      TimeSpan.mk.injEq]
    decide
  · refine (group_expansion_drops_palette_refs pW ctxW ⟨0, 1⟩ none true
      (.int 1) none none none).2.1 _ ?_
    have hg : ctxW.resolve_group "g" = [0, 1] := rfl
    norm_num [LightPattern.pick, LightPattern.query, pW, ghap, groupTruthy, hg,
      (by decide : ¬ ("g" : String) = ""), resolveCount, pyRandInt, pySample, pyShuffle,
      seedState, pyHashQ, rngMix, shuffleGo, LightHap.whole_or_part]
    decide

/-- The HTP write either leaves the accumulator untouched (only possible when
an intensity is already recorded for the light) or records the new color and
intensity at exactly that light. -/
theorem htpWrite_cases (acc : FrameAcc) (k : Int) (c : RGB) (v : ℚ) :
    ((∃ w, acc.intens k = some w) ∧ htpWrite acc k c v = acc)
    ∨ htpWrite acc k c v =
        ⟨Function.update acc.colors k (some c), Function.update acc.intens k (some v),
          acc.active⟩ := by
  unfold htpWrite
  by_cases hl : htpLess (acc.intens k) v = true
  · right
    rw [if_pos hl]
  · left
    rw [if_neg hl]
    refine ⟨?_, rfl⟩
    cases hik : acc.intens k with
    | none => rw [hik] at hl; exact absurd rfl hl
    | some w => exact ⟨w, rfl⟩

theorem dictSet_mem (l : List (Int × ActiveEvent)) (k : Int) (v : ActiveEvent) :
    ∀ kv ∈ dictSet l k v, kv.1 = k ∨ kv ∈ l := by
  intro kv hkv
  unfold dictSet at hkv
  by_cases h : l.any (fun kv => kv.1 = k)
  · rw [if_pos h] at hkv
    rw [List.mem_map] at hkv
    obtain ⟨kv', hkv', heq⟩ := hkv
    by_cases hk : kv'.1 = k
    · rw [if_pos hk] at heq
      left
      rw [← heq]
    · rw [if_neg hk] at heq
      right
      rw [← heq]
      exact hkv'
  · rw [if_neg h] at hkv
    rcases List.mem_append.mp hkv with hl | hr
    · right; exact hl
    · left
      rw [List.mem_singleton.mp hr]

theorem foldl_preserve_mem {α β : Type} (P : α → Prop) (f : α → β → α) :
    ∀ (l : List β) (a : α), P a → (∀ x b, b ∈ l → P x → P (f x b)) →
      P (l.foldl f a) := by
  intro l
  induction l with
  | nil => intro a ha _; exact ha
  | cons b t ih =>
    intro a ha hstep
    rw [List.foldl_cons]
    exact ih (f a b) (hstep a b (List.mem_cons_self b t) ha)
      (fun x b' hb' hx => hstep x b' (List.mem_cons_of_mem b hb') hx)

/-- The intensity recorded for light `i` after one inner-loop step of the
first pass is one HTP accumulation step over the (event, target) pair's
contribution. -/
theorem processLight_intens (modEval : Modulator → ℚ → ℚ) (s : Scheduler) (cp : ℚ)
    (idx : Nat) (hap : LightHap) (acc : FrameAcc) (lid i : Int) :
    (s.processLight modEval cp idx hap acc lid).intens i =
      (if lid = i ∧ ¬ (lid < 0 ∨ (s.context.num_lights : Int) ≤ lid)
          ∧ hap.whole_or_part.contains cp
        then htpStep (acc.intens i) (effIntensity modEval hap cp)
        else acc.intens i) := by
  unfold Scheduler.processLight
  by_cases hrange : lid < 0 ∨ (s.context.num_lights : Int) ≤ lid
  · rw [if_pos hrange, if_neg (by tauto)]
  · rw [if_neg hrange]
    by_cases hcont : hap.whole_or_part.contains cp
    · rw [if_pos hcont]
      by_cases hthr : effIntensity modEval hap cp < 1/100
      · rw [if_pos hthr]
        by_cases hli : lid = i
        · rw [if_pos ⟨hli, hrange, hcont⟩]
          unfold htpStep
          rw [if_pos hthr]
        · rw [if_neg (by tauto)]
      · rw [if_neg hthr]
        show (htpWrite acc lid _ _).intens i = _
        unfold htpWrite htpStep
        by_cases hl : htpLess (acc.intens lid) (effIntensity modEval hap cp) = true
        · rw [if_pos hl]
          by_cases hli : lid = i
          · subst hli
            rw [if_pos ⟨rfl, hrange, hcont⟩, if_neg hthr, if_pos hl]
            exact Function.update_same _ _ _
          · rw [if_neg (by tauto)]
            exact Function.update_noteq (Ne.symm hli) _ _
        · rw [if_neg hl]
          by_cases hli : lid = i
          · subst hli
            rw [if_pos ⟨rfl, hrange, hcont⟩, if_neg hthr, if_neg hl]
          · rw [if_neg (by tauto)]
    · rw [if_neg hcont, if_neg (by tauto)]

theorem htpFold_cons (init : Option ℚ) (x : ℚ) (l : List ℚ) :
    htpFold init (x :: l) = htpFold (htpStep init x) l := rfl

theorem htpFold_append (init : Option ℚ) (l1 l2 : List ℚ) :
    htpFold init (l1 ++ l2) = htpFold (htpFold init l1) l2 :=
  List.foldl_append _ _ _ _

/-- The inner loop of the first pass accumulates exactly the HTP fold of the
(event, target, light) contributions. -/
theorem foldl_lightIds_intens (modEval : Modulator → ℚ → ℚ) (s : Scheduler) (cp : ℚ)
    (idx : Nat) (hap : LightHap) (lids : List Int) (acc : FrameAcc) (i : Int) :
    ((lids.foldl (s.processLight modEval cp idx hap) acc).intens i) =
      htpFold (acc.intens i)
        (lids.filterMap (fun lid =>
          if lid = i ∧ ¬ (lid < 0 ∨ (s.context.num_lights : Int) ≤ lid)
              ∧ hap.whole_or_part.contains cp
          then some (effIntensity modEval hap cp) else none)) := by
  induction lids generalizing acc with
  | nil => rfl
  | cons lid t ih =>
    rw [List.foldl_cons, ih, List.filterMap_cons]
    by_cases hcond : lid = i ∧ ¬ (lid < 0 ∨ (s.context.num_lights : Int) ≤ lid)
        ∧ hap.whole_or_part.contains cp
    · rw [if_pos hcond, htpFold_cons]
      rw [processLight_intens, if_pos hcond]
    · rw [if_neg hcond]
      rw [processLight_intens, if_neg hcond]

/-- The whole first pass accumulates the HTP fold of `effContribs`. -/
theorem phase1_intens (modEval : Modulator → ℚ → ℚ) (s : Scheduler) (cp : ℚ)
    (haps : List LightHap) (acc : FrameAcc) (i : Int) :
    (s.phase1 modEval cp haps acc).intens i =
      htpFold (acc.intens i) (effContribs modEval s cp haps i) := by
  have hpairs : ∀ (ps : List (Nat × LightHap)) (acc0 : FrameAcc),
      ((ps.foldl (fun a ih => (lightIdsOf s.context ih.2).foldl
          (s.processLight modEval cp ih.1 ih.2) a) acc0).intens i) =
        htpFold (acc0.intens i) (ps.flatMap (fun ih =>
          (lightIdsOf s.context ih.2).filterMap (fun lid =>
            if lid = i ∧ ¬ (lid < 0 ∨ (s.context.num_lights : Int) ≤ lid)
                ∧ ih.2.whole_or_part.contains cp
            then some (effIntensity modEval ih.2 cp) else none))) := by
    intro ps
    induction ps with
    | nil => intro acc0; rfl
    | cons ih0 t iht =>
      intro acc0
      rw [List.foldl_cons, iht, List.flatMap_cons, htpFold_append]
      rw [foldl_lightIds_intens]
  rw [Scheduler.phase1, hpairs]
  rw [effContribs]
  have : haps.enum.flatMap (fun ih =>
      (lightIdsOf s.context ih.2).filterMap (fun lid =>
        if lid = i ∧ ¬ (lid < 0 ∨ (s.context.num_lights : Int) ≤ lid)
            ∧ ih.2.whole_or_part.contains cp
        then some (effIntensity modEval ih.2 cp) else none)) =
      (haps.enum.map Prod.snd).flatMap (fun h =>
        (lightIdsOf s.context h).filterMap (fun lid =>
          if lid = i ∧ ¬ (lid < 0 ∨ (s.context.num_lights : Int) ≤ lid)
              ∧ h.whole_or_part.contains cp
          then some (effIntensity modEval h cp) else none)) := by
    rw [List.flatMap_map]
  rw [this, List.enum_map_snd]

/-- The HTP fold lands on the maximum whenever the maximum passes the 0.01
threshold. -/
theorem htpFold_max : ∀ (l : List ℚ) (cur : Option ℚ) (m : ℚ),
    1/100 ≤ m → (∀ x ∈ l, x ≤ m) → (∀ w, cur = some w → w ≤ m) →
    (m ∈ l ∨ cur = some m) → htpFold cur l = some m := by
  intro l
  induction l with
  | nil =>
    intro cur m _ _ _ hm
    rcases hm with hm | hm
    · exact absurd hm (List.not_mem_nil m)
    · exact hm
  | cons a t ih =>
    intro cur m hthr hall hcur hm
    rw [htpFold_cons]
    have halla : a ≤ m := hall a (List.mem_cons_self a t)
    have hallt : ∀ x ∈ t, x ≤ m := fun x hx => hall x (List.mem_cons_of_mem a hx)
    have hcur' : ∀ w, htpStep cur a = some w → w ≤ m := by
      intro w hw
      unfold htpStep at hw
      by_cases hta : a < 1/100
      · rw [if_pos hta] at hw
        exact hcur w hw
      · rw [if_neg hta] at hw
        by_cases hl : htpLess cur a = true
        · rw [if_pos hl] at hw
          rw [← Option.some_inj.mp hw]
          exact halla
        · rw [if_neg hl] at hw
          exact hcur w hw
    refine ih (htpStep cur a) m hthr hallt hcur' ?_
    rcases hm with hm | hm
    · rcases List.mem_cons.mp hm with hma | hmt
      · right
        subst hma
        unfold htpStep
        rw [if_neg (by linarith)]
        by_cases hl : htpLess cur m = true
        · rw [if_pos hl]
        · rw [if_neg hl]
          cases hc : cur with
          | none => exact absurd rfl (hc ▸ hl)
          | some w =>
            have hwm : w ≤ m := hcur w hc
            have hl' : ¬ htpLess (some w) m = true := hc ▸ hl
            have hnlt : ¬ w < m := by
              intro hcon
              exact hl' (by simp [htpLess, hcon])
            have hwem : w = m := le_antisymm hwm (not_lt.mp hnlt)
            rw [hwem]
      · left; exact hmt
    · right
      unfold htpStep
      by_cases hta : a < 1/100
      · rw [if_pos hta]; exact hm
      · rw [if_neg hta]
        rw [hm]
        have hna : ¬ m < a := not_lt.mpr halla
        rw [show htpLess (some m) a = false by simp [htpLess, hna]]
        simp

/-- Below the threshold everything is discarded: the fold records nothing. -/
theorem htpFold_none : ∀ (l : List ℚ), (∀ x ∈ l, x < 1/100) → htpFold none l = none := by
  intro l
  induction l with
  | nil => intro _; rfl
  | cons a t ih =>
    intro hall
    rw [htpFold_cons]
    unfold htpStep
    rw [if_pos (hall a (List.mem_cons_self a t))]
    exact ih (fun x hx => hall x (List.mem_cons_of_mem a hx))

theorem htpWrite_wf (n : Int) (acc : FrameAcc) (k : Int) (c : RGB) (v : ℚ)
    (hwf : accWf n acc) (h0 : 0 ≤ k) (h1 : k < n) :
    accWf n (htpWrite acc k c v) ∧ (htpWrite acc k c v).active = acc.active
    ∧ (∀ j, (acc.colors j).isSome = true → ((htpWrite acc k c v).colors j).isSome = true)
    ∧ (((htpWrite acc k c v).colors k).isSome = true
        ∨ (htpWrite acc k c v = acc ∧ ∃ w, acc.intens k = some w)) := by
  obtain ⟨hiff, hrange, hkeys⟩ := hwf
  rcases htpWrite_cases acc k c v with ⟨⟨w, hw⟩, heq⟩ | heq
  · rw [heq]
    exact ⟨⟨hiff, hrange, hkeys⟩, rfl, fun j hj => hj, Or.inr ⟨rfl, w, hw⟩⟩
  · rw [heq]
    refine ⟨⟨?_, ?_, hkeys⟩, rfl, ?_, Or.inl ?_⟩
    · intro j
      by_cases hj : j = k
      · subst hj
        simp [Function.update_same]
      · simp only [Function.update_noteq hj]
        exact hiff j
    · intro j hj
      by_cases hjk : j = k
      · subst hjk
        exact ⟨h0, h1⟩
      · simp only [Function.update_noteq hjk] at hj
        exact hrange j hj
    · intro j hj
      by_cases hjk : j = k
      · subst hjk
        simp [Function.update_same]
      · simp only [Function.update_noteq hjk]
        exact hj
    · simp [Function.update_same]

/-- One inner-loop step of the first pass preserves the accumulator
well-formedness and the tracked-implies-colored property. -/
theorem processLight_inv (modEval : Modulator → ℚ → ℚ) (s : Scheduler) (cp : ℚ)
    (idx : Nat) (hap : LightHap) (acc : FrameAcc) (lid : Int)
    (hwf : accWf (s.context.num_lights : Int) acc) :
    accWf (s.context.num_lights : Int) (s.processLight modEval cp idx hap acc lid)
    ∧ (trackedColored acc → trackedColored (s.processLight modEval cp idx hap acc lid)) := by
  unfold Scheduler.processLight
  by_cases hr : lid < 0 ∨ ((s.context.num_lights : Int)) ≤ lid
  · rw [if_pos hr]; exact ⟨hwf, fun ht => ht⟩
  · rw [if_neg hr]
    push_neg at hr
    by_cases hcont : hap.whole_or_part.contains cp
    · rw [if_pos hcont]
      by_cases hthr : effIntensity modEval hap cp < 1/100
      · rw [if_pos hthr]; exact ⟨hwf, fun ht => ht⟩
      · rw [if_neg hthr]
        obtain ⟨hwf1, hact1, hmono1, hsome1⟩ := htpWrite_wf (s.context.num_lights : Int)
          acc lid _ (effIntensity modEval hap cp) hwf hr.1 hr.2
        constructor
        · refine ⟨hwf1.1, hwf1.2.1, ?_⟩
          intro kv hkv
          rcases dictSet_mem _ _ _ kv hkv with hk | hk
          · rw [hk]; exact ⟨hr.1, hr.2⟩
          · rw [hact1] at hk
            exact hwf1.2.2 kv (hact1 ▸ hk)
        · intro ht kv hkv
          rcases dictSet_mem _ _ _ kv hkv with hk | hk
          · rw [hk]
            rcases hsome1 with hs | ⟨heq, w, hw⟩
            · exact hs
            · rw [heq]
              exact (hwf.1 lid).mpr (by rw [hw]; rfl)
          · exact hmono1 kv.1 (ht kv (hact1 ▸ hk))
    · rw [if_neg hcont]; exact ⟨hwf, fun ht => ht⟩

/-- The whole first pass preserves the accumulator well-formedness and the
tracked-implies-colored property. -/
theorem phase1_wf (modEval : Modulator → ℚ → ℚ) (s : Scheduler) (cp : ℚ)
    (haps : List LightHap) (acc : FrameAcc)
    (hwf : accWf (s.context.num_lights : Int) acc) :
    accWf (s.context.num_lights : Int) (s.phase1 modEval cp haps acc)
    ∧ (trackedColored acc → trackedColored (s.phase1 modEval cp haps acc)) := by
  unfold Scheduler.phase1
  refine foldl_preserve_mem
    (fun a => accWf (s.context.num_lights : Int) a ∧ (trackedColored acc → trackedColored a))
    _ haps.enum acc ⟨hwf, fun ht => ht⟩ ?_
  intro x b hb hx
  refine foldl_preserve_mem
    (fun a => accWf (s.context.num_lights : Int) a ∧ (trackedColored acc → trackedColored a))
    _ (lightIdsOf s.context b.2) x hx ?_
  intro y lid hlid hy
  obtain ⟨hywf, hytc⟩ := hy
  obtain ⟨h1, h2⟩ := processLight_inv modEval s cp b.1 b.2 y lid hywf
  exact ⟨h1, fun ht => h2 (hytc ht)⟩

/-- The second pass skips an entry whose light already has a color. -/
theorem processActive_skip (modEval : Modulator → ℚ → ℚ) (s : Scheduler) (cp : ℚ)
    (acc : FrameAcc) (exp : List Int) (entry : Int × ActiveEvent)
    (h : (acc.colors entry.1).isSome = true) :
    s.processActive modEval cp (acc, exp) entry = (acc, exp) := by
  unfold Scheduler.processActive
  rw [if_pos h]

/-- When every tracked key already has a color, the whole second pass is a
no-op. -/
theorem phase2_skip_all (modEval : Modulator → ℚ → ℚ) (s : Scheduler) (cp : ℚ) :
    ∀ (l : List (Int × ActiveEvent)) (acc : FrameAcc) (exp : List Int),
    (∀ kv ∈ l, (acc.colors kv.1).isSome = true) →
    l.foldl (s.processActive modEval cp) (acc, exp) = (acc, exp) := by
  intro l
  induction l with
  | nil => intro acc exp _; rfl
  | cons kv t ih =>
    intro acc exp hall
    rw [List.foldl_cons,
      processActive_skip modEval s cp acc exp kv (hall kv (List.mem_cons_self kv t))]
    exact ih acc exp (fun x hx => hall x (List.mem_cons_of_mem kv hx))

/-- One step of the second pass preserves the accumulator well-formedness and
never touches the tracked-event list. -/
theorem processActive_wf (modEval : Modulator → ℚ → ℚ) (s : Scheduler) (cp : ℚ)
    (st : FrameAcc × List Int) (entry : Int × ActiveEvent)
    (hwf : accWf (s.context.num_lights : Int) st.1)
    (hk : 0 ≤ entry.1 ∧ entry.1 < (s.context.num_lights : Int)) :
    accWf (s.context.num_lights : Int) (s.processActive modEval cp st entry).1
    ∧ (s.processActive modEval cp st entry).1.active = st.1.active := by
  obtain ⟨acc, exp⟩ := st
  obtain ⟨lid, ae⟩ := entry
  unfold Scheduler.processActive
  by_cases hc : (acc.colors lid).isSome = true
  · rw [if_pos hc]
    exact ⟨hwf, rfl⟩
  · rw [if_neg hc]
    cases henv : ae.hap.value.envelope with
    | none => exact ⟨hwf, rfl⟩
    | some envl =>
      show accWf _ ((if _ ∧ _ then _ else _ : FrameAcc × List Int)).1
        ∧ ((if _ ∧ _ then _ else _ : FrameAcc × List Int)).1.active = _
      split
      · show accWf _ ((if _ then _ else _ : FrameAcc × List Int)).1
          ∧ ((if _ then _ else _ : FrameAcc × List Int)).1.active = _
        split
        · exact ⟨hwf, rfl⟩
        · obtain ⟨h1, h2, _, _⟩ := htpWrite_wf (s.context.num_lights : Int) acc lid
            _ (effIntensity modEval ae.hap cp) hwf hk.1 hk.2
          exact ⟨h1, h2⟩
      · exact ⟨hwf, rfl⟩

/-- The colors dict returned by `compute_colors`: the phase-2 accumulator with
the in-range holes filled with black. -/
theorem computeFrame_colors_eq (modEval : Modulator → ℚ → ℚ) (s : Scheduler)
    (activeIn : List (Int × ActiveEvent)) (bp : ℚ) (i : Int) :
    (s.computeFrame modEval activeIn bp).colors i =
      (match (frameSt2 modEval s activeIn bp).1.colors i with
       | some c => some c
       | none =>
          if 0 ≤ i ∧ i < (s.context.num_lights : Int) then some RGB.black else none) := rfl

/-- The intensities dict of a frame is the phase-2 accumulator's. -/
theorem computeFrame_intens_eq (modEval : Modulator → ℚ → ℚ) (s : Scheduler)
    (activeIn : List (Int × ActiveEvent)) (bp : ℚ) :
    (s.computeFrame modEval activeIn bp).intens =
      (frameSt2 modEval s activeIn bp).1.intens := rfl

/-- C2: scheduler output totality — for every beat position (given the tracked
continuation keys are in range, the invariant the write path maintains), the
dict returned by `compute_colors` is the frame's colors dict, has an RGB entry
for a fixture id exactly when the id lies in `[0, num_lights)`, and every
in-range light whose frame recorded no intensity (no event wrote a color) is
assigned black. -/
theorem compute_colors_totality (modEval : Modulator → ℚ → ℚ) (s : Scheduler)
    (activeIn : List (Int × ActiveEvent)) (bp : ℚ)
    (hkeys : ∀ kv ∈ activeIn, 0 ≤ kv.1 ∧ kv.1 < (s.context.num_lights : Int)) :
    (s.compute_colors modEval activeIn bp).1 = (s.computeFrame modEval activeIn bp).colors
    ∧ (∀ i, ((s.compute_colors modEval activeIn bp).1 i).isSome = true
        ↔ (0 ≤ i ∧ i < (s.context.num_lights : Int)))
    ∧ (∀ i, 0 ≤ i → i < (s.context.num_lights : Int) →
        (s.computeFrame modEval activeIn bp).intens i = none →
        (s.compute_colors modEval activeIn bp).1 i = some RGB.black) := by
  have hwf0 : accWf (s.context.num_lights : Int)
      ⟨fun _ => none, fun _ => none, activeIn⟩ :=
    ⟨fun i => Iff.rfl, fun i h => absurd h (by simp), hkeys⟩
  have hwf1 : accWf (s.context.num_lights : Int) (frameAcc1 modEval s activeIn bp) :=
    (phase1_wf modEval s (frameCp s bp) (frameHaps s bp)
      ⟨fun _ => none, fun _ => none, activeIn⟩ hwf0).1
  have hst2 : accWf (s.context.num_lights : Int) (frameSt2 modEval s activeIn bp).1 :=
    foldl_preserve_mem
      (fun st : FrameAcc × List Int => accWf (s.context.num_lights : Int) st.1)
      (s.processActive modEval (frameCp s bp))
      (frameAcc1 modEval s activeIn bp).active
      (frameAcc1 modEval s activeIn bp, [])
      hwf1
      (fun x b hb hx => (processActive_wf modEval s (frameCp s bp) x b hx (hwf1.2.2 b hb)).1)
  have hcc : (s.compute_colors modEval activeIn bp).1
      = (s.computeFrame modEval activeIn bp).colors := rfl
  refine ⟨hcc, ?_, ?_⟩
  · intro i
    rw [hcc, computeFrame_colors_eq]
    cases hc2 : (frameSt2 modEval s activeIn bp).1.colors i with
    | some c =>
      exact ⟨fun _ => hst2.2.1 i (by rw [hc2]; exact rfl), fun _ => rfl⟩
    | none =>
      show ((if 0 ≤ i ∧ i < (s.context.num_lights : Int) then some RGB.black
          else none : Option RGB)).isSome = true ↔ _
      by_cases hir : 0 ≤ i ∧ i < (s.context.num_lights : Int)
      · rw [if_pos hir]
        exact ⟨fun _ => hir, fun _ => rfl⟩
      · rw [if_neg hir]
        exact ⟨fun h => absurd h (by decide), fun h => absurd h hir⟩
  · intro i h0 h1 hnone
    rw [computeFrame_intens_eq] at hnone
    have hcnone : (frameSt2 modEval s activeIn bp).1.colors i = none := by
      cases hc2 : (frameSt2 modEval s activeIn bp).1.colors i with
      | none => rfl
      | some c =>
        have hs : ((frameSt2 modEval s activeIn bp).1.intens i).isSome = true :=
          (hst2.1 i).mp (by rw [hc2]; exact rfl)
        rw [hnone] at hs
        exact absurd hs (by decide)
    rw [hcc, computeFrame_colors_eq, hcnone]
    show (if 0 ≤ i ∧ i < (s.context.num_lights : Int) then some RGB.black
        else none : Option RGB) = some RGB.black
    rw [if_pos ⟨h0, h1⟩]

/-- Witness for C2: the single-light dim scheduler, empty tracker, beat 0. -/
theorem compute_colors_totality_witness :
    (∀ kv ∈ ([] : List (Int × ActiveEvent)),
        0 ≤ kv.1 ∧ kv.1 < (schedDim.context.num_lights : Int))
    ∧ ((schedDim.compute_colors modEvalOne [] 0).1
          = (schedDim.computeFrame modEvalOne [] 0).colors
      ∧ (∀ i, ((schedDim.compute_colors modEvalOne [] 0).1 i).isSome = true
            ↔ (0 ≤ i ∧ i < (schedDim.context.num_lights : Int)))
      ∧ (∀ i, 0 ≤ i → i < (schedDim.context.num_lights : Int) →
            (schedDim.computeFrame modEvalOne [] 0).intens i = none →
            (schedDim.compute_colors modEvalOne [] 0).1 i = some RGB.black)) :=
  ⟨fun kv hkv => absurd hkv (List.not_mem_nil kv),
   compute_colors_totality modEvalOne schedDim [] 0
     (fun kv hkv => absurd hkv (List.not_mem_nil kv))⟩

/-- C1 counterexample: with a single concurrently active event of effective
intensity 1/200 targeting light 0, the maximum of the effective intensities is
1/200, but the frame records no intensity at all for light 0 (the 0.01
threshold discards the contribution before HTP comparison) and emits black —
the emitted intensity is not the maximum of the active effective
intensities. -/
theorem htp_threshold_counterexample :
    isMaxOf (1/200)
      (effContribs modEvalOne schedDim (frameCp schedDim 0) (frameHaps schedDim 0) 0)
    ∧ (schedDim.computeFrame modEvalOne [] 0).intens 0 = none
    ∧ (schedDim.compute_colors modEvalOne [] 0).1 0 = some RGB.black := by
  have hcp : frameCp schedDim 0 = 0 := by
    show (0 : ℚ) / 4 = 0
    norm_num
  have hhaps : frameHaps schedDim 0 = [dimHap] := rfl
  have hcont : dimHap.whole_or_part.contains (frameCp schedDim 0) := by
    rw [hcp]
    show (0 : ℚ) ≤ 0 ∧ (0 : ℚ) < 1
    norm_num
  have heff : effIntensity modEvalOne dimHap (frameCp schedDim 0) = 1/200 := by
    show (1/200 : ℚ) * 1 * 1 = 1/200
    norm_num
  have hcond : ((0 : Int) = 0
      ∧ ¬ ((0 : Int) < 0 ∨ (schedDim.context.num_lights : Int) ≤ (0 : Int))
      ∧ dimHap.whole_or_part.contains (frameCp schedDim 0)) :=
    ⟨rfl, by decide, hcont⟩
  have hl : effContribs modEvalOne schedDim (frameCp schedDim 0) (frameHaps schedDim 0) 0
      = [(1/200 : ℚ)] := by
    rw [hhaps]
    unfold effContribs
    rw [List.flatMap_cons, List.flatMap_nil, List.append_nil,
      show lightIdsOf schedDim.context dimHap = [(0 : Int)] from rfl,
      List.filterMap_cons, List.filterMap_nil]
    rw [if_pos hcond, heff]
  have hmaxd : isMaxOf (1/200)
      (effContribs modEvalOne schedDim (frameCp schedDim 0) (frameHaps schedDim 0) 0) := by
    constructor
    · rw [hl]
      exact List.mem_singleton.mpr rfl
    · rw [hl]
      intro x hx
      exact le_of_eq (List.mem_singleton.mp hx)
  have hstep : schedDim.processLight modEvalOne (frameCp schedDim 0) 0 dimHap
      ⟨fun _ => none, fun _ => none, []⟩ 0 = ⟨fun _ => none, fun _ => none, []⟩ := by
    unfold Scheduler.processLight
    rw [if_neg (show ¬ ((0 : Int) < 0 ∨ (schedDim.context.num_lights : Int) ≤ 0) from
      by decide)]
    rw [if_pos hcont]
    rw [if_pos (show effIntensity modEvalOne dimHap (frameCp schedDim 0) < 1/100 from by
      rw [heff]; norm_num)]
  have hacc1 : frameAcc1 modEvalOne schedDim [] 0 = ⟨fun _ => none, fun _ => none, []⟩ := by
    show schedDim.processLight modEvalOne (frameCp schedDim 0) 0 dimHap
        ⟨fun _ => none, fun _ => none, []⟩ 0 = ⟨fun _ => none, fun _ => none, []⟩
    exact hstep
  have hst2 : frameSt2 modEvalOne schedDim [] 0 = (⟨fun _ => none, fun _ => none, []⟩, []) := by
    unfold frameSt2
    rw [hacc1]
    rfl
  have hint : (schedDim.computeFrame modEvalOne [] 0).intens 0 = none := by
    rw [computeFrame_intens_eq, hst2]
  have hcol : (schedDim.compute_colors modEvalOne [] 0).1 0 = some RGB.black := by
    show (schedDim.computeFrame modEvalOne [] 0).colors 0 = some RGB.black
    rw [computeFrame_colors_eq, hst2]
    show (if (0 : Int) ≤ 0 ∧ (0 : Int) < (schedDim.context.num_lights : Int)
        then some RGB.black else none) = some RGB.black
    rw [if_pos (by decide)]
  exact ⟨hmaxd, hint, hcol⟩

/-- C1 (amended): HTP blending — in a frame starting with an empty
continuation tracker, whenever the maximum `m` of the effective intensities
(`event.intensity * envelope_intensity * modulator_intensity`) contributed to
light `i` by the queried concurrently active events reaches the 0.01 render
threshold, the intensity recorded by the frame for `i` is exactly `m`; and the
HTP write rule records a value over a previously recorded intensity only when
it is strictly greater. -/
theorem htp_blending (modEval : Modulator → ℚ → ℚ) (s : Scheduler) (bp : ℚ)
    (i : Int) (m : ℚ)
    (hmax : isMaxOf m (effContribs modEval s (frameCp s bp) (frameHaps s bp) i))
    (hthr : 1/100 ≤ m) :
    (s.computeFrame modEval [] bp).intens i = some m
    ∧ (∀ (acc : FrameAcc) (k : Int) (c : RGB) (v w : ℚ),
        acc.intens k = some w → v ≤ w → htpWrite acc k c v = acc) := by
  constructor
  · have hwf0 : accWf (s.context.num_lights : Int)
        ⟨fun _ => none, fun _ => none, ([] : List (Int × ActiveEvent))⟩ :=
      ⟨fun j => Iff.rfl, fun j h => absurd h (by simp),
       fun kv hkv => absurd hkv (List.not_mem_nil kv)⟩
    obtain ⟨hwf1, htc1⟩ := phase1_wf modEval s (frameCp s bp) (frameHaps s bp)
      ⟨fun _ => none, fun _ => none, []⟩ hwf0
    have htc1' := htc1 (fun kv hkv => absurd hkv (List.not_mem_nil kv))
    have hskip : frameSt2 modEval s [] bp = (frameAcc1 modEval s [] bp, []) :=
      phase2_skip_all modEval s (frameCp s bp) (frameAcc1 modEval s [] bp).active
        (frameAcc1 modEval s [] bp) [] htc1'
    rw [computeFrame_intens_eq, hskip]
    show (s.phase1 modEval (frameCp s bp) (frameHaps s bp)
        ⟨fun _ => none, fun _ => none, []⟩).intens i = some m
    rw [phase1_intens]
    exact htpFold_max _ _ m hthr hmax.2 (fun w hw => absurd hw (by simp))
      (Or.inl hmax.1)
  · intro acc k c v w hw hvw
    have hl : htpLess (acc.intens k) v = false := by
      rw [hw]
      show decide (w < v) = false
      exact decide_eq_false (not_lt.mpr hvw)
    unfold htpWrite
    rw [hl]
    rfl

/-- Witness for C1: the single-light scheduler playing the full-intensity red
event, at beat 0 — the unique effective intensity is 1 and the frame records
it. -/
theorem htp_blending_witness :
    (isMaxOf 1 (effContribs modEvalOne schedRed (frameCp schedRed 0) (frameHaps schedRed 0) 0)
      ∧ (1 : ℚ)/100 ≤ 1)
    ∧ ((schedRed.computeFrame modEvalOne [] 0).intens 0 = some 1
      ∧ (∀ (acc : FrameAcc) (k : Int) (c : RGB) (v w : ℚ),
          acc.intens k = some w → v ≤ w → htpWrite acc k c v = acc)) := by
  have hcp : frameCp schedRed 0 = 0 := by
    show (0 : ℚ) / 4 = 0
    norm_num
  have hhaps : frameHaps schedRed 0 = [hapRed] := rfl
  have hcont : hapRed.whole_or_part.contains (frameCp schedRed 0) := by
    rw [hcp]
    show (0 : ℚ) ≤ 0 ∧ (0 : ℚ) < 1
    norm_num
  have heff : effIntensity modEvalOne hapRed (frameCp schedRed 0) = 1 := by
    show (1 : ℚ) * 1 * 1 = 1
    norm_num
  have hcond : ((0 : Int) = 0
      ∧ ¬ ((0 : Int) < 0 ∨ (schedRed.context.num_lights : Int) ≤ (0 : Int))
      ∧ hapRed.whole_or_part.contains (frameCp schedRed 0)) :=
    ⟨rfl, by decide, hcont⟩
  have hl : effContribs modEvalOne schedRed (frameCp schedRed 0) (frameHaps schedRed 0) 0
      = [(1 : ℚ)] := by
    rw [hhaps]
    unfold effContribs
    rw [List.flatMap_cons, List.flatMap_nil, List.append_nil,
      show lightIdsOf schedRed.context hapRed = [(0 : Int)] from rfl,
      List.filterMap_cons, List.filterMap_nil]
    rw [if_pos hcond, heff]
  have hmax : isMaxOf 1
      (effContribs modEvalOne schedRed (frameCp schedRed 0) (frameHaps schedRed 0) 0) := by
    constructor
    · rw [hl]
      exact List.mem_singleton.mpr rfl
    · rw [hl]
      intro x hx
      exact le_of_eq (List.mem_singleton.mp hx)
  have hthr : (1 : ℚ)/100 ≤ 1 := by norm_num
  exact ⟨⟨hmax, hthr⟩, htp_blending modEvalOne schedRed 0 0 1 hmax hthr⟩

end DjHue
